import Mathlib

/- Verification development for the concurrency core of the openclaw repository:
   the multi-lane command queue (src/process/command-queue.ts) and the
   cross-process session write lock (src/agents/session-write-lock.ts).

   The queue is embedded as a small-step state machine over the JavaScript
   event loop: each step is one synchronous JS turn (an enqueue call, a
   setCommandLaneConcurrency call, a clearCommandLane call, a timer callback,
   the settlement continuation of a task, or a side effect performed by a
   running task).  Lanes are independent entries of a Map keyed by the cleaned
   lane name; the machine below models one lane's state, which is exactly the
   LaneState record of the source.  Task identities are allocated by the
   machine (nextId) in enqueue order, mirroring the fact that each call to
   enqueueCommandInLane creates one fresh QueueEntry. -/

namespace CommandQueue

/-- Observations a caller (or an external observer) can make of one lane:
    enqueueCommandInLane pushed an entry, the pump started a task, a running
    task performed a side effect, the caller's promise was resolved, rejected
    by the timeout guard, or rejected with the task's own error. -/
inductive Obs where
  | enqueued (id : Nat)
  | started (id : Nat)
  | effected (id : Nat)
  | resolved (id : Nat)
  | rejectedTimeout (id : Nat)
  | rejectedError (id : Nat)
deriving DecidableEq, Repr

/-- Per-launched-task state of the async IIFE in drainLane: the one-shot
    settled flag, whether the setTimeout callback already ran (timerFired),
    whether clearTimeout was called (timerCleared), and whether the underlying
    task function has itself finished (taskDone). -/
structure TaskRun where
  id : Nat
  settled : Bool
  timerFired : Bool
  timerCleared : Bool
  taskDone : Bool
deriving DecidableEq, Repr

/-- LaneState from command-queue.ts (queue, active, maxConcurrent, draining)
    together with the set of launched tasks and the id allocator. The queue
    stores task identities; enqueuedAt / warnAfterMs / onWait only feed the
    wait-warning diagnostics, which are orthogonal to the claims below. -/
structure Sys where
  queue : List Nat
  active : Nat
  maxConcurrent : Nat
  draining : Bool
  runs : List TaskRun
  nextId : Nat
deriving DecidableEq, Repr

/-- A lane as created by getLaneState: empty queue, no active tasks,
    maxConcurrent = 1, not draining. -/
def init : Sys :=
  { queue := [], active := 0, maxConcurrent := 1, draining := false,
    runs := [], nextId := 0 }

/-- The run record created when the pump launches a task. -/
def newRun (id : Nat) : TaskRun :=
  { id := id, settled := false, timerFired := false, timerCleared := false,
    taskDone := false }

/-- The while-loop of pump: while active < maxConcurrent and the queue is
    non-empty, shift the head and start it.  Returns the remaining queue, the
    new active count, and the identities started, in start order. -/
def pumpGo : List Nat → Nat → Nat → List Nat × Nat × List Nat
  | [], active, _ => ([], active, [])
  | id :: rest, active, maxConc =>
    if active < maxConc then
      let out := pumpGo rest (active + 1) maxConc
      (out.1, out.2.1, id :: out.2.2)
    else (id :: rest, active, [])

/-- pump: run the while-loop, record the launched runs, emit a started
    observation per launch, and reset the draining flag (line 117 of the
    source runs at the end of every pump call). -/
def pump (s : Sys) : Sys × List Obs :=
  let out := pumpGo s.queue s.active s.maxConcurrent
  ({ s with queue := out.1, active := out.2.1,
            runs := s.runs ++ out.2.2.map newRun, draining := false },
   out.2.2.map Obs.started)

/-- drainLane: re-entrancy guard around pump. -/
def drainLane (s : Sys) : Sys × List Obs :=
  if s.draining then (s, []) else pump { s with draining := true }

/-- First launched run with the given identity. -/
def findRun (runs : List TaskRun) (id : Nat) : Option TaskRun :=
  runs.find? (fun r => r.id == id)

/-- Update every launched run with the given identity. -/
def updateRun (runs : List TaskRun) (id : Nat) (f : TaskRun → TaskRun) :
    List TaskRun :=
  runs.map (fun r => if r.id == id then f r else r)

/-- The events a scheduler can deliver to one lane: the exported queue entry
    points, the timeout timer of a launched task firing, the underlying task
    of a launched run settling (ok = resolved, not ok = rejected), and a
    running task performing an observable side effect. -/
inductive Ev where
  | enqueue
  | setConc (n : Int)
  | clear
  | timerFire (id : Nat)
  | complete (id : Nat) (ok : Bool)
  | effect (id : Nat)
deriving DecidableEq, Repr

/-- One synchronous JS turn.
    enqueue: push a fresh entry and drainLane (enqueueCommandInLane).
    setConc: maxConcurrent := max 1 (floor n) and drainLane
             (setCommandLaneConcurrency; the Int argument is the floor of the
             JS number).
    clear:   queue.length = 0 (clearCommandLane); promises of removed entries
             are dropped without being settled.
    timerFire: the setTimeout callback of run id. It runs at most once and
             only if clearTimeout was not called; its body is guarded by the
             settled flag (lines 77-87): decrement active, pump, then reject.
    complete: the underlying task settles. The continuation (lines 88-114) is
             guarded by settled: clearTimeout, decrement active, pump, then
             resolve or reject with the task's own outcome.
    effect:  a side effect performed by a launched task that has not yet
             finished; the machine records it without touching lane state. -/
def step (s : Sys) : Ev → Sys × List Obs
  | .enqueue =>
    let id := s.nextId
    let out := drainLane { s with queue := s.queue ++ [id], nextId := id + 1 }
    (out.1, Obs.enqueued id :: out.2)
  | .setConc n =>
    drainLane { s with maxConcurrent := (max 1 n).toNat }
  | .clear => ({ s with queue := [] }, [])
  | .timerFire id =>
    match findRun s.runs id with
    | none => (s, [])
    | some r =>
      if r.timerFired || r.timerCleared then (s, [])
      else if r.settled then
        let runs1 := updateRun s.runs id (fun t => { t with timerFired := true })
        ({ s with runs := runs1 }, [])
      else
        let runs1 := updateRun s.runs id
          (fun t => { t with timerFired := true, settled := true })
        let out := pump { s with runs := runs1, active := s.active - 1 }
        (out.1, out.2 ++ [Obs.rejectedTimeout id])
  | .complete id ok =>
    match findRun s.runs id with
    | none => (s, [])
    | some r =>
      if r.taskDone then (s, [])
      else if r.settled then
        let runs1 := updateRun s.runs id (fun t => { t with taskDone := true })
        ({ s with runs := runs1 }, [])
      else
        let runs1 := updateRun s.runs id
          (fun t => { t with taskDone := true, settled := true,
                             timerCleared := true })
        let out := pump { s with runs := runs1, active := s.active - 1 }
        (out.1, out.2 ++
          [if ok then Obs.resolved id else Obs.rejectedError id])
  | .effect id =>
    match findRun s.runs id with
    | none => (s, [])
    | some r => if r.taskDone then (s, []) else (s, [Obs.effected id])

/-- Execute a sequence of events, concatenating observations. -/
def run (s : Sys) : List Ev → Sys × List Obs
  | [] => (s, [])
  | e :: es =>
    let out := step s e
    let out2 := run out.1 es
    (out2.1, out.2 ++ out2.2)

/-- Identities in enqueue order, read off an observation trace. -/
def enqueuedIds (obs : List Obs) : List Nat :=
  obs.filterMap (fun o => match o with | .enqueued i => some i | _ => none)

/-- Identities in start order, read off an observation trace. -/
def startedIds (obs : List Obs) : List Nat :=
  obs.filterMap (fun o => match o with | .started i => some i | _ => none)

/-- Identities of side effects in the order they were observed. -/
def effectIds (obs : List Obs) : List Nat :=
  obs.filterMap (fun o => match o with | .effected i => some i | _ => none)

/-- Is this observation a settlement of the promise of task id? -/
def isSettleFor (id : Nat) : Obs → Bool
  | .resolved j => j == id
  | .rejectedTimeout j => j == id
  | .rejectedError j => j == id
  | _ => false

/-- Number of settlements of task id's promise in a trace. -/
def settleCount (id : Nat) (obs : List Obs) : Nat :=
  (obs.filter (isSettleFor id)).length

/-- Number of launched runs of task id whose settled flag is set. -/
def countSettled (id : Nat) (runs : List TaskRun) : Nat :=
  (runs.filter (fun r => r.id == id && r.settled)).length

/-- A list of naturals is nondecreasing (used to state that side effects
    appear grouped in enqueue order, since identities are allocated in
    enqueue order). -/
def nondecreasing : List Nat → Bool
  | [] => true
  | [_] => true
  | a :: b :: t => a ≤ b && nondecreasing (b :: t)

/-- All task identities known to the lane: launched runs first (in start
    order), then the pending queue (in enqueue order). -/
def idsList (s : Sys) : List Nat :=
  s.runs.map (fun r => r.id) ++ s.queue

/-- Well-formedness of identity bookkeeping: identities are strictly
    increasing across runs-then-queue, and below the allocator. -/
def IdsOk (s : Sys) : Prop :=
  (idsList s).Pairwise (· < ·) ∧ ∀ i ∈ idsList s, i < s.nextId

/-- The number the pump launches: free capacity capped by the queue length. -/
def pumpCount (s : Sys) : Nat :=
  min (s.maxConcurrent - s.active) s.queue.length

/-- Does this event respect the current capacity when it resizes the lane?
    Every event qualifies except a setCommandLaneConcurrency call that lowers
    the cap below the number of currently active tasks. -/
def noBadLower (s : Sys) : Ev → Bool
  | .setConc n => s.active ≤ (max 1 n).toNat
  | _ => true

/-- Along the execution of the event list, no setCommandLaneConcurrency call
    ever lowers the cap below the then-active count. -/
def invAlong (s : Sys) : List Ev → Bool
  | [] => true
  | e :: es => noBadLower s e && invAlong (step s e).1 es

/-- Every launched run whose timer callback already ran, or whose underlying
    task already finished, has its settled flag set. -/
def flagsConsistent (s : Sys) : Bool :=
  s.runs.all (fun r => !(r.timerFired || r.taskDone) || r.settled)

/-- Events allowed in the sequential (maxConcurrency = 1, no timer firing)
    scenario of claim C3: everything except concurrency changes and timeout
    firings. -/
def sequentialEv : Ev → Bool
  | .setConc _ => false
  | .timerFire _ => false
  | _ => true

/-- Number of launched runs whose underlying task has not finished. -/
def countUndone (runs : List TaskRun) : Nat :=
  (runs.filter (fun r => !r.taskDone)).length

/-- Invariant of the sequential scenario (maxConcurrency = 1, no timer
    firing): runs are settled exactly when finished and no timer has fired,
    the active count equals the number of unfinished runs and is at most one,
    every observed side effect identity is bounded by every unfinished run,
    strictly bounded by everything still queued and by the allocator, and the
    observed side effects are already in enqueue order. -/
def SeqInv (s : Sys) (obs : List Obs) : Prop :=
  s.maxConcurrent = 1 ∧
  (∀ r ∈ s.runs, r.settled = r.taskDone ∧ r.timerFired = false) ∧
  s.active = countUndone s.runs ∧
  s.active ≤ 1 ∧
  (∀ e ∈ effectIds obs, ∀ r ∈ s.runs, r.taskDone = false → e ≤ r.id) ∧
  (∀ e ∈ effectIds obs, ∀ q ∈ s.queue, e < q) ∧
  (∀ e ∈ effectIds obs, e < s.nextId) ∧
  nondecreasing (effectIds obs) = true

end CommandQueue

/- Embedding of src/agents/session-write-lock.ts.  The filesystem, JSON
   parsing of the lock file body, Date.parse, and the process.kill(pid, 0)
   probe are external collaborators: they are represented by explicit inputs
   (the parse result of the existing lock file body as an Option, a date
   parsing oracle, a signal-probe oracle), and by an explicit trace of the
   filesystem effects the code performs (closing the OS handle, deleting the
   lock file). -/

namespace SessionWriteLock

/-- Parsed body of a lock file, as validated by readLockPayload: a numeric
    pid field and a string createdAt field. A file that does not read, does
    not parse as JSON, or fails these two type checks is represented by
    none at the use sites. -/
structure LockFilePayload where
  pid : Int
  createdAt : String
deriving DecidableEq, Repr

/-- Outcome of probing a pid with process.kill(pid, 0): the signal was
    accepted, it failed with EPERM, or it failed with any other error
    (e.g. ESRCH). -/
inductive ProbeResult where
  | ok
  | eperm
  | err
deriving DecidableEq, Repr

/-- isAlive: a non-positive pid is dead; otherwise probe it, treating EPERM
    as alive (the process exists but is owned by another user). -/
def isAlive (probe : Int → ProbeResult) (pid : Int) : Bool :=
  if pid ≤ 0 then false
  else
    match probe pid with
    | .ok => true
    | .eperm => true
    | .err => false

/-- What one iteration of the acquisition loop does after the exclusive
    create fails with EEXIST. -/
inductive LockRetry where
  | deleteAndRetryNow
  | waitThenRetry (delayMs : Nat)
deriving DecidableEq, Repr

/-- The EEXIST branch of the acquisition loop (lines 190-200):
    createdAt := payload?.createdAt ? Date.parse(payload.createdAt) : NaN;
    stale := not finite createdAt, or now - createdAt > staleMs;
    alive := payload?.pid ? isAlive(payload.pid) : false;
    if stale or not alive, delete the lock file and continue with no delay;
    otherwise sleep min(1000, 50 * attempt) before the next iteration.
    dateParse returns none where Date.parse returns NaN; JS truthiness of
    the empty string and of pid 0 is modelled explicitly. -/
def onLockContention (dateParse : String → Option Int)
    (probe : Int → ProbeResult) (payload : Option LockFilePayload)
    (now : Int) (staleMs : Int) (attempt : Nat) : LockRetry :=
  let createdAt : Option Int :=
    match payload with
    | none => none
    | some p => if p.createdAt = "" then none else dateParse p.createdAt
  let stale : Bool :=
    match createdAt with
    | none => true
    | some t => decide (now - t > staleMs)
  let alive : Bool :=
    match payload with
    | none => false
    | some p => if p.pid = 0 then false else isAlive probe p.pid
  if stale || !alive then .deleteAndRetryNow
  else .waitThenRetry (min 1000 (50 * attempt))

/-- The reclaim condition exactly as claim C4 words it (a refinement
    reference, deliberately written from the claim text, not from the code):
    the payload is unparsable, or the recorded process is not alive, or
    now - createdAt exceeds staleMs (which presupposes a parsed createdAt). -/
def claimReclaimCondition (dateParse : String → Option Int)
    (probe : Int → ProbeResult) (payload : Option LockFilePayload)
    (now : Int) (staleMs : Int) : Bool :=
  let unparsable : Bool := payload.isNone
  let notAlive : Bool :=
    match payload with
    | none => true
    | some p => !(if p.pid = 0 then false else isAlive probe p.pid)
  let tooOld : Bool :=
    match payload with
    | none => false
    | some p =>
      match (if p.createdAt = "" then none else dateParse p.createdAt) with
      | none => false
      | some t => decide (now - t > staleMs)
  unparsable || notAlive || tooOld

/-- The per-iteration decision as claim C4 words it: reclaim under the
    claim's condition, otherwise wait min(1000, 50 * attempt). -/
def claimLockRetryDecision (dateParse : String → Option Int)
    (probe : Int → ProbeResult) (payload : Option LockFilePayload)
    (now : Int) (staleMs : Int) (attempt : Nat) : LockRetry :=
  if claimReclaimCondition dateParse probe payload now staleMs
  then .deleteAndRetryNow
  else .waitThenRetry (min 1000 (50 * attempt))

/-- The reclaim condition of the code, with the amendment of claim C4 made
    explicit: a payload whose createdAt does not parse as a date is also
    reclaimed (together with unparsable payloads, dead owners, and lock
    files older than staleMs). -/
def amendedReclaimCondition (dateParse : String → Option Int)
    (probe : Int → ProbeResult) (payload : Option LockFilePayload)
    (now : Int) (staleMs : Int) : Bool :=
  match payload with
  | none => true
  | some p =>
    (match (if p.createdAt = "" then none else dateParse p.createdAt) with
     | none => true
     | some t => decide (now - t > staleMs))
    || !(if p.pid = 0 then false else isAlive probe p.pid)

/-- In-process record of a held lock: reference count, OS handle (abstract
    identity), and the path of the lock file on disk. -/
structure HeldLock where
  count : Nat
  handleId : Nat
  lockPath : String
deriving DecidableEq, Repr

/-- Filesystem effects release performs: closing the handle and deleting the
    lock file. -/
inductive FsEffect where
  | closeHandle (h : Nat)
  | rmFile (p : String)
deriving DecidableEq, Repr

/-- The HELD_LOCKS map: canonical session file path to held-lock record,
    in insertion order (a JS Map). -/
def LockTable := List (String × HeldLock)

/-- HELD_LOCKS.get. -/
def lookupLock : List (String × HeldLock) → String → Option HeldLock
  | [], _ => none
  | (k, v) :: t, key => if k = key then some v else lookupLock t key

/-- HELD_LOCKS.set (replace in place, or append when absent). -/
def setLock : List (String × HeldLock) → String → HeldLock →
    List (String × HeldLock)
  | [], key, v => [(key, v)]
  | (k, w) :: t, key, v =>
    if k = key then (k, v) :: t else (k, w) :: setLock t key v

/-- HELD_LOCKS.delete. -/
def removeLock (m : List (String × HeldLock)) (key : String) :
    List (String × HeldLock) :=
  m.filter (fun kv => kv.1 ≠ key)

/-- The release closure returned by acquireSessionWriteLock (two textually
    identical copies exist at lines 143-155 and 171-183; both read the
    shared HELD_LOCKS entry for the canonical path): if no entry remains,
    return; decrement the count; if still positive, return; otherwise remove
    the entry, close the handle and delete the lock file. -/
def release (m : List (String × HeldLock)) (key : String) :
    List (String × HeldLock) × List FsEffect :=
  match lookupLock m key with
  | none => (m, [])
  | some h =>
    if h.count - 1 > 0 then
      (setLock m key { h with count := h.count - 1 }, [])
    else
      (removeLock m key, [.closeHandle h.handleId, .rmFile h.lockPath])

/-- The in-process re-entrancy fast path of acquireSessionWriteLock
    (lines 139-157): when the canonical path is already held, bump the
    reference count and return at once; none means the caller falls through
    to the filesystem acquisition loop. The empty effect list records that
    this path touches no filesystem state. -/
def acquireReentrant (m : List (String × HeldLock)) (key : String) :
    Option (List (String × HeldLock) × List FsEffect) :=
  match lookupLock m key with
  | none => none
  | some h => some (setLock m key { h with count := h.count + 1 }, [])

/-- n successive calls of release closures for the same canonical path
    (all such closures behave identically and act on the shared table). -/
def releaseN : Nat → List (String × HeldLock) → String →
    List (String × HeldLock) × List FsEffect
  | 0, m, _ => (m, [])
  | n + 1, m, key =>
    let out := release m key
    let out2 := releaseN n out.1 key
    (out2.1, out.2 ++ out2.2)

/-- JS String.prototype.endsWith. -/
def strEndsWith (s suffix : String) : Bool :=
  suffix.toList.isSuffixOf s.toList

/-- lockPath.replace of the trailing .lock (the regex anchors at the end,
    so only a trailing occurrence is removed). -/
def stripLockSuffix (s : String) : String :=
  if strEndsWith s (".lock")
  then String.mk (s.toList.take (s.toList.length - 5))
  else s

/-- path.join(directory, name) for a simple relative name. -/
def joinPath (dir name : String) : String := dir ++ "/" ++ name

/-- A directory entry as cleanupOrphanedLocks sees it: the file name and the
    readLockPayload result for its content. -/
structure DirEntry where
  name : String
  payload : Option LockFilePayload
deriving DecidableEq, Repr

/-- The loop of cleanupOrphanedLocks over the .lock files (lines 232-250):
    skip entries whose resource path is in HELD_LOCKS, delete entries whose
    payload is unparsable or whose recorded pid is not alive.  Returns the
    count returned by the function and (for specification purposes) the
    paths it removed, in order. -/
def cleanupLoop (probe : Int → ProbeResult) (held : List String)
    (directory : String) : List DirEntry → Nat × List String
  | [] => (0, [])
  | e :: rest =>
    let lockPath := joinPath directory e.name
    let sessionFile := stripLockSuffix lockPath
    let out := cleanupLoop probe held directory rest
    if held.contains sessionFile then out
    else
      match e.payload with
      | none => (out.1 + 1, lockPath :: out.2)
      | some p =>
        if isAlive probe p.pid then out
        else (out.1 + 1, lockPath :: out.2)

/-- cleanupOrphanedLocks(directory): filter the directory listing to names
    ending in .lock, then run the removal loop. -/
def cleanupOrphanedLocks (probe : Int → ProbeResult) (held : List String)
    (directory : String) (entries : List DirEntry) : Nat × List String :=
  cleanupLoop probe held directory
    (entries.filter (fun e => strEndsWith e.name (".lock")))

/-- Should cleanupOrphanedLocks remove this .lock entry?  (Declarative
    characterization: not held by this process, and unparsable or dead.) -/
def orphaned (probe : Int → ProbeResult) (held : List String)
    (directory : String) (e : DirEntry) : Bool :=
  !held.contains (stripLockSuffix (joinPath directory e.name)) &&
    (match e.payload with
     | none => true
     | some p => !isAlive probe p.pid)

/-- The message of the error that rejects a timed-out lane task
    (command-queue.ts line 85). -/
def laneTimeoutErrorMessage (timeoutMs : Nat) : String :=
  "Lane task timed out after " ++ toString timeoutMs ++ "ms"

/-- The warning logged on the timeout path (command-queue.ts line 82). -/
def laneTimeoutWarnLog (lane : String) (durationMs timeoutMs active queued : Nat) :
    String :=
  "lane task timeout: lane=" ++ lane ++ " durationMs=" ++ toString durationMs ++
    " timeoutMs=" ++ toString timeoutMs ++ " active=" ++ toString active ++
    " queued=" ++ toString queued

/-- The owner part of the lock-timeout error (line 205): pid=<pid> when the
    payload parsed and its pid is truthy, otherwise unknown. -/
def lockOwnerDescription (payload : Option LockFilePayload) : String :=
  match payload with
  | none => "unknown"
  | some p => if p.pid = 0 then "unknown" else "pid=" ++ toString p.pid

/-- The message of the error thrown when the acquisition loop exhausts its
    wall-clock budget (line 206). -/
def lockTimeoutErrorMessage (timeoutMs : Nat) (payload : Option LockFilePayload)
    (lockPath : String) : String :=
  "session file locked (timeout " ++ toString timeoutMs ++ "ms): " ++
    lockOwnerDescription payload ++ " " ++ lockPath

/-- Does the first character list begin the second? -/
def matchesAt : List Char → List Char → Bool
  | [], _ => true
  | _ :: _, [] => false
  | a :: xs, b :: ys => a == b && matchesAt xs ys

/-- Does the needle occur contiguously inside the haystack? -/
def containsSeq (needle : List Char) : List Char → Bool
  | [] => matchesAt needle []
  | b :: ys => matchesAt needle (b :: ys) || containsSeq needle ys

/-- JS String.prototype.includes: used to state which pieces of information
    an error message names. -/
def strIncludes (hay needle : String) : Bool :=
  containsSeq needle.toList hay.toList

end SessionWriteLock

namespace CommandQueue

/-- Closed form of the pump while-loop: it starts exactly
    min (maxConc - active) queue.length tasks, taken from the queue head. -/
theorem pumpGo_eq : ∀ (q : List Nat) (a m : Nat),
    pumpGo q a m =
      (q.drop (min (m - a) q.length), a + min (m - a) q.length,
       q.take (min (m - a) q.length))
  | [], a, m => by simp [pumpGo]
  | id :: rest, a, m => by
    by_cases h : a < m
    · have h2 : min (m - a) (id :: rest).length =
          min (m - (a + 1)) rest.length + 1 := by
        simp only [List.length_cons]; omega
      have h3 : a + 1 + min (m - (a + 1)) rest.length =
          a + (min (m - (a + 1)) rest.length + 1) := by omega
      simp only [pumpGo, if_pos h, pumpGo_eq rest (a + 1) m, h2,
        List.drop_succ_cons, List.take_succ_cons, h3]
    · have h0 : m - a = 0 := by omega
      simp [pumpGo, if_neg h, h0]

/-- Closed form of pump on the whole lane state. -/
theorem pump_eq (s : Sys) :
    pump s =
      ({ s with queue := s.queue.drop (pumpCount s),
                active := s.active + pumpCount s,
                runs := s.runs ++ (s.queue.take (pumpCount s)).map newRun,
                draining := false },
       (s.queue.take (pumpCount s)).map Obs.started) := by
  simp [pump, pumpGo_eq, pumpCount]

/-- If the lane is within its cap, pump keeps it within its cap. -/
theorem pump_active_le (s : Sys) (h : s.active ≤ s.maxConcurrent) :
    (pump s).1.active ≤ (pump s).1.maxConcurrent := by
  rw [pump_eq]
  simp only [pumpCount]
  omega

/-- pump moves identities from the queue to the runs, preserving the
    combined identity list. -/
theorem pump_idsList (s : Sys) : idsList (pump s).1 = idsList s := by
  rw [pump_eq]
  simp only [idsList, List.map_append, List.map_map]
  have hm : ∀ l : List Nat,
      l.map ((fun r : TaskRun => r.id) ∘ newRun) = l := by
    intro l
    have : ((fun r : TaskRun => r.id) ∘ newRun) = id := by
      funext x; rfl
    rw [this, List.map_id]
  rw [hm, List.append_assoc, List.take_append_drop]

theorem pump_queue (s : Sys) : (pump s).1.queue = s.queue.drop (pumpCount s) := by
  rw [pump_eq]

theorem pump_maxConcurrent (s : Sys) :
    (pump s).1.maxConcurrent = s.maxConcurrent := by
  rw [pump_eq]

theorem pump_nextId (s : Sys) : (pump s).1.nextId = s.nextId := by
  rw [pump_eq]

theorem pump_runs (s : Sys) :
    (pump s).1.runs = s.runs ++ (s.queue.take (pumpCount s)).map newRun := by
  rw [pump_eq]

theorem pump_obs (s : Sys) :
    (pump s).2 = (s.queue.take (pumpCount s)).map Obs.started := by
  rw [pump_eq]

theorem isSettleFor_started (id j : Nat) :
    isSettleFor id (Obs.started j) = false := rfl

theorem isSettleFor_enqueued (id j : Nat) :
    isSettleFor id (Obs.enqueued j) = false := rfl

theorem isSettleFor_effected (id j : Nat) :
    isSettleFor id (Obs.effected j) = false := rfl

theorem isSettleFor_resolved (id j : Nat) :
    isSettleFor id (Obs.resolved j) = (j == id) := rfl

theorem isSettleFor_rejectedTimeout (id j : Nat) :
    isSettleFor id (Obs.rejectedTimeout j) = (j == id) := rfl

theorem isSettleFor_rejectedError (id j : Nat) :
    isSettleFor id (Obs.rejectedError j) = (j == id) := rfl

theorem settleCount_append (id : Nat) (o1 o2 : List Obs) :
    settleCount id (o1 ++ o2) = settleCount id o1 + settleCount id o2 := by
  simp [settleCount, List.filter_append]

theorem settleCount_nil (id : Nat) : settleCount id [] = 0 := rfl

theorem settleCount_started (id : Nat) (l : List Nat) :
    settleCount id (l.map Obs.started) = 0 := by
  induction l with
  | nil => rfl
  | cons a t ih => simp [settleCount, List.filter_cons, isSettleFor, ih]

theorem countSettled_append (id : Nat) (r1 r2 : List TaskRun) :
    countSettled id (r1 ++ r2) = countSettled id r1 + countSettled id r2 := by
  simp [countSettled, List.filter_append]

theorem countSettled_newRuns (id : Nat) (l : List Nat) :
    countSettled id (l.map newRun) = 0 := by
  induction l with
  | nil => rfl
  | cons a t ih => simp [countSettled, List.filter_cons, newRun, ih]

/-- If no run carries the identity, updateRun is the identity. -/
theorem updateRun_not_mem (runs : List TaskRun) (id : Nat)
    (f : TaskRun → TaskRun) (h : ∀ r ∈ runs, r.id ≠ id) :
    updateRun runs id f = runs := by
  induction runs with
  | nil => rfl
  | cons a t ih =>
    have ha : (a.id == id) = false := by
      simp [h a (List.mem_cons_self a t)]
    simp only [updateRun, List.map_cons, ha, if_neg Bool.false_ne_true]
    rw [show List.map (fun r => if (r.id == id) = true then f r else r) t =
      updateRun t id f from rfl]
    rw [ih (fun r hr => h r (List.mem_cons_of_mem a hr))]

/-- updateRun with an id-preserving update keeps the identity list. -/
theorem updateRun_map_id (runs : List TaskRun) (id : Nat)
    (f : TaskRun → TaskRun) (hf : ∀ t, (f t).id = t.id) :
    (updateRun runs id f).map (fun r => r.id) = runs.map (fun r => r.id) := by
  induction runs with
  | nil => rfl
  | cons a t ih =>
    simp only [updateRun, List.map_cons] at *
    rw [ih]
    by_cases h : (a.id == id) = true
    · simp [h, hf]
    · simp [h]

theorem countSettled_cons (id : Nat) (a : TaskRun) (t : List TaskRun) :
    countSettled id (a :: t) =
      (if (a.id == id && a.settled) = true then 1 else 0) + countSettled id t := by
  simp only [countSettled, List.filter_cons]
  split
  · simp [Nat.add_comm]
  · simp

theorem countSettled_zero_of_not_mem (id : Nat) (t : List TaskRun)
    (h : ∀ x ∈ t, x.id ≠ id) : countSettled id t = 0 := by
  induction t with
  | nil => rfl
  | cons a t ih =>
    rw [countSettled_cons]
    have ha : (a.id == id) = false := by
      simp [h a (List.mem_cons_self a t)]
    rw [ih (fun x hx => h x (List.mem_cons_of_mem a hx))]
    simp [ha]

theorem countSettled_le_one (id : Nat) (runs : List TaskRun)
    (hnd : (runs.map (fun r => r.id)).Nodup) : countSettled id runs ≤ 1 := by
  induction runs with
  | nil => simp [countSettled]
  | cons a t ih =>
    rw [countSettled_cons]
    simp only [List.map_cons, List.nodup_cons] at hnd
    by_cases ha : (a.id == id) = true
    · have : ∀ x ∈ t, x.id ≠ id := by
        intro x hx hxe
        exact hnd.1 (by
          rw [show a.id = id from by simpa using ha, ← hxe]
          exact List.mem_map_of_mem (fun r => r.id) hx)
      rw [countSettled_zero_of_not_mem id t this]
      split <;> omega
    · have := ih hnd.2
      simp only [ha, Bool.false_and, if_neg Bool.false_ne_true]
      omega

theorem findRun_mem {runs : List TaskRun} {id : Nat} {r : TaskRun}
    (h : findRun runs id = some r) : r ∈ runs ∧ r.id = id := by
  refine ⟨List.mem_of_find?_eq_some h, ?_⟩
  have := List.find?_some h
  simpa using this

theorem findRun_unique {runs : List TaskRun} {id : Nat} {r : TaskRun}
    (hnd : (runs.map (fun r => r.id)).Nodup)
    (hfind : findRun runs id = some r) :
    ∀ y ∈ runs, y.id = id → y = r := by
  induction runs with
  | nil => simp [findRun] at hfind
  | cons a t ih =>
    simp only [List.map_cons, List.nodup_cons] at hnd
    by_cases ha : (a.id == id) = true
    · have hra : r = a := by
        have : findRun (a :: t) id = some a := by
          simp [findRun, List.find?_cons_of_pos, ha]
        rw [this] at hfind
        exact (Option.some_inj.mp hfind).symm
      intro y hy hyid
      rcases List.mem_cons.mp hy with h1 | h2
      · rw [h1, hra]
      · exfalso
        apply hnd.1
        rw [show a.id = id from by simpa using ha, ← hyid]
        exact List.mem_map_of_mem (fun r => r.id) h2
    · have hfind' : findRun t id = some r := by
        simpa [findRun, List.find?_cons_of_neg, ha] using hfind
      intro y hy hyid
      rcases List.mem_cons.mp hy with h1 | h2
      · exfalso
        apply ha
        simp [h1 ▸ hyid]
      · exact ih hnd.2 hfind' y h2 hyid

theorem mem_updateRun {runs : List TaskRun} {id : Nat} {f : TaskRun → TaskRun}
    {x : TaskRun} (hx : x ∈ updateRun runs id f) :
    ∃ y ∈ runs, (x = y ∧ (y.id == id) = false) ∨
      (x = f y ∧ (y.id == id) = true) := by
  rcases List.mem_map.mp hx with ⟨y, hy, hxy⟩
  refine ⟨y, hy, ?_⟩
  by_cases h : (y.id == id) = true
  · right
    exact ⟨by rw [← hxy]; simp [h], h⟩
  · left
    refine ⟨by rw [← hxy]; simp [h], by simpa using h⟩

/-- The key accounting step: settling the (unique, currently unsettled) run
    with the given identity bumps its settled count by one and leaves every
    other identity's count unchanged. -/
theorem countSettled_updateRun_settle (runs : List TaskRun) (id : Nat)
    (f : TaskRun → TaskRun) {r : TaskRun}
    (hnd : (runs.map (fun r => r.id)).Nodup)
    (hfind : findRun runs id = some r) (hr : r.settled = false)
    (hfid : ∀ t, (f t).id = t.id) (hfs : ∀ t, (f t).settled = true) :
    ∀ id', countSettled id' (updateRun runs id f) =
      countSettled id' runs + (if id' = id then 1 else 0) := by
  induction runs with
  | nil => simp [findRun] at hfind
  | cons a t ih =>
    intro id'
    simp only [List.map_cons, List.nodup_cons] at hnd
    by_cases ha : (a.id == id) = true
    · have hra : r = a := by
        have : findRun (a :: t) id = some a := by
          simp [findRun, List.find?_cons_of_pos, ha]
        rw [this] at hfind
        exact (Option.some_inj.mp hfind).symm
      have htail : ∀ x ∈ t, x.id ≠ id := by
        intro x hx hxe
        exact hnd.1 (by
          rw [show a.id = id from by simpa using ha, ← hxe]
          exact List.mem_map_of_mem (fun r => r.id) hx)
      have hupd : updateRun t id f = t := updateRun_not_mem t id f htail
      simp only [updateRun, List.map_cons, ha, if_pos]
      rw [show List.map (fun r => if (r.id == id) = true then f r else r) t =
        updateRun t id f from rfl, hupd]
      rw [countSettled_cons, countSettled_cons]
      have hfa_id : (f a).id = a.id := hfid a
      have hfa_s : (f a).settled = true := hfs a
      have has : a.settled = false := by rw [← hra]; exact hr
      rw [hfa_id, hfa_s, has]
      have haid : a.id = id := by simpa using ha
      by_cases hii : id' = id
      · subst hii
        simp only [haid, beq_self_eq_true, Bool.true_and, Bool.and_false]
        simp [Nat.add_comm]
      · have : (a.id == id') = false := by
          simp [haid]; exact fun h => hii h.symm
        simp [this, hii]
    · have hfind' : findRun t id = some r := by
        simpa [findRun, List.find?_cons_of_neg, ha] using hfind
      simp only [updateRun, List.map_cons, ha, if_neg Bool.false_ne_true]
      rw [show List.map (fun r => if (r.id == id) = true then f r else r) t =
        updateRun t id f from rfl]
      rw [countSettled_cons, countSettled_cons]
      rw [ih hnd.2 hfind' id']
      omega

/-- An update that does not touch the settled flag does not change any
    settled count. -/
theorem countSettled_updateRun_keep (runs : List TaskRun) (id : Nat)
    (f : TaskRun → TaskRun)
    (hfid : ∀ t, (f t).id = t.id) (hfs : ∀ t, (f t).settled = t.settled) :
    ∀ id', countSettled id' (updateRun runs id f) = countSettled id' runs := by
  induction runs with
  | nil => intro id'; rfl
  | cons a t ih =>
    intro id'
    simp only [updateRun, List.map_cons]
    rw [show List.map (fun r => if (r.id == id) = true then f r else r) t =
      updateRun t id f from rfl]
    rw [countSettled_cons, countSettled_cons, ih id']
    by_cases h : (a.id == id) = true
    · simp [h, hfid, hfs]
    · simp [h]

theorem drainLane_idsList (s : Sys) : idsList (drainLane s).1 = idsList s := by
  unfold drainLane
  split
  · rfl
  · rw [pump_idsList]
    rfl

theorem drainLane_nextId (s : Sys) : (drainLane s).1.nextId = s.nextId := by
  unfold drainLane
  split
  · rfl
  · rw [pump_nextId]

theorem drainLane_settleCount (s : Sys) (id : Nat) :
    settleCount id (drainLane s).2 = 0 := by
  unfold drainLane
  split
  · rfl
  · rw [pump_obs, settleCount_started]

theorem drainLane_countSettled (s : Sys) (id : Nat) :
    countSettled id (drainLane s).1.runs = countSettled id s.runs := by
  unfold drainLane
  split
  · rfl
  · rw [pump_runs, countSettled_append, countSettled_newRuns]
    rfl

/-- Freshly launched runs satisfy the flag implication trivially. -/
theorem flags_newRuns (l : List Nat) :
    ∀ r ∈ l.map newRun, (!(r.timerFired || r.taskDone) || r.settled) = true := by
  intro r hr
  rcases List.mem_map.mp hr with ⟨i, _, hri⟩
  rw [← hri]
  rfl

theorem flagsConsistent_iff (s : Sys) :
    flagsConsistent s = true ↔
      ∀ r ∈ s.runs, (!(r.timerFired || r.taskDone) || r.settled) = true := by
  simp [flagsConsistent, List.all_eq_true]

theorem pump_flags (s : Sys) (h : flagsConsistent s = true) :
    flagsConsistent (pump s).1 = true := by
  rw [flagsConsistent_iff] at h ⊢
  rw [pump_runs]
  intro r hr
  rcases List.mem_append.mp hr with h1 | h2
  · exact h r h1
  · exact flags_newRuns _ r h2

theorem drainLane_flags (s : Sys) (h : flagsConsistent s = true) :
    flagsConsistent (drainLane s).1 = true := by
  unfold drainLane
  split
  · exact h
  · exact pump_flags _ h

/-- IdsOk depends only on the combined identity list and the allocator. -/
theorem IdsOk_of_eq {s t : Sys} (hl : idsList t = idsList s)
    (hn : t.nextId = s.nextId) (h : IdsOk s) : IdsOk t := by
  constructor
  · rw [hl]; exact h.1
  · intro i hi
    rw [hn]
    exact h.2 i (hl ▸ hi)

/-- Identities of the launched runs are pairwise distinct in a well-formed
    lane. -/
theorem IdsOk_runs_nodup {s : Sys} (h : IdsOk s) :
    (s.runs.map (fun r => r.id)).Nodup := by
  have hnd : (idsList s).Nodup :=
    List.Pairwise.imp (fun hab => Nat.ne_of_lt hab) h.1
  exact List.Nodup.of_append_left hnd

theorem settleCount_cons (id : Nat) (o : Obs) (l : List Obs) :
    settleCount id (o :: l) =
      (if isSettleFor id o = true then 1 else 0) + settleCount id l := by
  simp only [settleCount, List.filter_cons]
  split
  · simp [Nat.add_comm]
  · simp

theorem pump_countSettled (s : Sys) (id : Nat) :
    countSettled id (pump s).1.runs = countSettled id s.runs := by
  rw [pump_runs, countSettled_append, countSettled_newRuns]
  rfl

/-- Updating the unique run with a given id keeps the flag consistency
    provided the updated record itself stays consistent. -/
theorem flagsConsistent_updateRun {s : Sys} {id : Nat} {f : TaskRun → TaskRun}
    {r : TaskRun} (h1 : IdsOk s) (h2 : flagsConsistent s = true)
    (hfind : findRun s.runs id = some r)
    (hfr : (!((f r).timerFired || (f r).taskDone) || (f r).settled) = true) :
    flagsConsistent { s with runs := updateRun s.runs id f } = true := by
  rw [flagsConsistent_iff] at h2 ⊢
  intro x hx
  rcases mem_updateRun hx with ⟨y, hy, hcase⟩
  rcases hcase with ⟨hxy, _⟩ | ⟨hxy, hyid⟩
  · rw [hxy]; exact h2 y hy
  · have : y = r :=
      findRun_unique (IdsOk_runs_nodup h1) hfind y hy (by simpa using hyid)
    rw [hxy, this]; exact hfr

theorem idsList_updateRun (s : Sys) (id : Nat) (f : TaskRun → TaskRun)
    (hf : ∀ t, (f t).id = t.id) :
    idsList { s with runs := updateRun s.runs id f } = idsList s := by
  simp only [idsList]
  rw [updateRun_map_id s.runs id f hf]

/-- The pump emits only started observations, never settlements. -/
theorem pump_settleObs (s : Sys) (id : Nat) :
    settleCount id (pump s).2 = 0 := by
  rw [pump_obs, settleCount_started]

/-- Single-settlement bookkeeping is preserved by every event: the identity
    structure stays well formed, finished-or-fired runs stay settled, and the
    number of settlements observed for each id equals the number of its
    settled runs. -/
theorem settleInv_step (s : Sys) (acc : List Obs) (e : Ev)
    (h1 : IdsOk s) (h2 : flagsConsistent s = true)
    (h3 : ∀ id, settleCount id acc = countSettled id s.runs) :
    IdsOk (step s e).1 ∧ flagsConsistent (step s e).1 = true ∧
      ∀ id, settleCount id (acc ++ (step s e).2) =
        countSettled id (step s e).1.runs := by
  cases e with
  | enqueue =>
    simp only [step]
    have hl : idsList { s with queue := s.queue ++ [s.nextId], nextId := s.nextId + 1 } = idsList s ++ [s.nextId] := by
      simp [idsList, List.append_assoc]
    refine ⟨?_, ?_, ?_⟩
    · apply IdsOk_of_eq (drainLane_idsList _) (drainLane_nextId _)
      constructor
      · rw [hl, List.pairwise_append]
        refine ⟨h1.1, List.pairwise_singleton _ _, ?_⟩
        intro a ha b hb
        rw [List.mem_singleton.mp hb]
        exact h1.2 a ha
      · intro i hi
        rw [hl] at hi
        show i < s.nextId + 1
        rcases List.mem_append.mp hi with hi1 | hi2
        · exact Nat.lt_succ_of_lt (h1.2 i hi1)
        · rw [List.mem_singleton.mp hi2]
          exact Nat.lt_succ_self _
    · exact drainLane_flags _ h2
    · intro id
      rw [settleCount_append, settleCount_cons, isSettleFor_enqueued,
        drainLane_settleCount, drainLane_countSettled]
      simpa using h3 id
  | setConc n =>
    simp only [step]
    refine ⟨?_, ?_, ?_⟩
    · exact IdsOk_of_eq (drainLane_idsList _) (drainLane_nextId _) h1
    · exact drainLane_flags _ h2
    · intro id
      rw [settleCount_append, drainLane_settleCount, drainLane_countSettled]
      simpa using h3 id
  | clear =>
    simp only [step]
    have hl : idsList { s with queue := ([] : List Nat) } =
        s.runs.map (fun r => r.id) := by simp [idsList]
    refine ⟨?_, ?_, ?_⟩
    · constructor
      · show List.Pairwise _ (idsList { s with queue := ([] : List Nat) })
        rw [hl]
        exact h1.1.sublist (List.sublist_append_left _ _)
      · intro i hi
        rw [show idsList ({ s with queue := [] } : Sys) =
          s.runs.map (fun r => r.id) from hl] at hi
        show i < s.nextId
        exact h1.2 i (List.mem_append.mpr (Or.inl hi))
    · exact h2
    · intro id
      simpa using h3 id
  | timerFire id0 =>
    rcases hfind : findRun s.runs id0 with _ | r
    · simp only [step, hfind]
      exact ⟨h1, h2, fun id => by simpa using h3 id⟩
    · by_cases hflag : (r.timerFired || r.timerCleared) = true
      · simp only [step, hfind, hflag, if_true]
        exact ⟨h1, h2, fun id => by simpa using h3 id⟩
      · by_cases hset : r.settled = true
        · simp only [step, hfind, hflag, hset, if_true, if_false,
            Bool.false_eq_true]
          refine ⟨?_, ?_, ?_⟩
          · exact IdsOk_of_eq (idsList_updateRun s id0 _ (fun t => rfl)) rfl h1
          · apply flagsConsistent_updateRun h1 h2 hfind
            simp [hset]
          · intro id
            rw [List.append_nil]
            rw [countSettled_updateRun_keep s.runs id0
              (fun t => { t with timerFired := true })
              (fun t => rfl) (fun t => rfl) id]
            exact h3 id
        · simp only [step, hfind, hflag, hset, if_false, Bool.false_eq_true]
          refine ⟨?_, ?_, ?_⟩
          · apply IdsOk_of_eq (pump_idsList _) (pump_nextId _)
            exact IdsOk_of_eq (idsList_updateRun s id0 _ (fun t => rfl)) rfl h1
          · apply pump_flags
            apply flagsConsistent_updateRun h1 h2 hfind
            rfl
          · intro id
            have hcs := countSettled_updateRun_settle s.runs id0
              (fun t => { t with timerFired := true, settled := true })
              (IdsOk_runs_nodup h1) hfind (by simpa using hset)
              (fun t => rfl) (fun t => rfl) id
            rw [settleCount_append, settleCount_append, pump_settleObs,
              settleCount_cons, settleCount_nil, isSettleFor_rejectedTimeout,
              pump_countSettled]
            dsimp only
            rw [hcs, h3 id]
            by_cases hii : id0 = id
            · subst hii
              simp
            · have h4 : (id0 == id) = false := by simp [hii]
              have h5 : ¬(id = id0) := fun h => hii h.symm
              simp [h4, h5]
  | complete id0 ok =>
    rcases hfind : findRun s.runs id0 with _ | r
    · simp only [step, hfind]
      exact ⟨h1, h2, fun id => by simpa using h3 id⟩
    · by_cases hdone : r.taskDone = true
      · simp only [step, hfind, hdone, if_true]
        exact ⟨h1, h2, fun id => by simpa using h3 id⟩
      · by_cases hset : r.settled = true
        · simp only [step, hfind, hdone, hset, if_true, if_false,
            Bool.false_eq_true]
          refine ⟨?_, ?_, ?_⟩
          · exact IdsOk_of_eq (idsList_updateRun s id0 _ (fun t => rfl)) rfl h1
          · apply flagsConsistent_updateRun h1 h2 hfind
            simp [hset]
          · intro id
            rw [List.append_nil]
            rw [countSettled_updateRun_keep s.runs id0
              (fun t => { t with taskDone := true })
              (fun t => rfl) (fun t => rfl) id]
            exact h3 id
        · simp only [step, hfind, hdone, hset, if_false, Bool.false_eq_true]
          refine ⟨?_, ?_, ?_⟩
          · apply IdsOk_of_eq (pump_idsList _) (pump_nextId _)
            exact IdsOk_of_eq (idsList_updateRun s id0 _ (fun t => rfl)) rfl h1
          · apply pump_flags
            apply flagsConsistent_updateRun h1 h2 hfind
            simp
          · intro id
            have hcs := countSettled_updateRun_settle s.runs id0
              (fun t => { t with taskDone := true, settled := true, timerCleared := true })
              (IdsOk_runs_nodup h1) hfind (by simpa using hset)
              (fun t => rfl) (fun t => rfl) id
            have hsing : isSettleFor id
                (if ok then Obs.resolved id0 else Obs.rejectedError id0) =
                (id0 == id) := by
              cases ok <;> rfl
            rw [settleCount_append, settleCount_append, pump_settleObs,
              settleCount_cons, settleCount_nil, hsing, pump_countSettled]
            dsimp only
            rw [hcs, h3 id]
            by_cases hii : id0 = id
            · subst hii
              simp
            · have h4 : (id0 == id) = false := by simp [hii]
              have h5 : ¬(id = id0) := fun h => hii h.symm
              simp [h4, h5]
  | effect id0 =>
    rcases hfind : findRun s.runs id0 with _ | r
    · simp only [step, hfind]
      exact ⟨h1, h2, fun id => by simpa using h3 id⟩
    · by_cases hdone : r.taskDone = true
      · simp only [step, hfind, hdone, if_true]
        exact ⟨h1, h2, fun id => by simpa using h3 id⟩
      · simp only [step, hfind, hdone, if_false, Bool.false_eq_true]
        refine ⟨h1, h2, ?_⟩
        intro id
        rw [settleCount_append, settleCount_cons, isSettleFor_effected,
          settleCount_nil]
        simpa using h3 id

/-- settleInv_step folded over a whole event list. -/
theorem settleInv_run (s : Sys) (acc : List Obs) (es : List Ev)
    (h1 : IdsOk s) (h2 : flagsConsistent s = true)
    (h3 : ∀ id, settleCount id acc = countSettled id s.runs) :
    IdsOk (run s es).1 ∧ flagsConsistent (run s es).1 = true ∧
      ∀ id, settleCount id (acc ++ (run s es).2) =
        countSettled id (run s es).1.runs := by
  induction es generalizing s acc with
  | nil => exact ⟨h1, h2, fun id => by simpa [run] using h3 id⟩
  | cons e es ih =>
    have h := settleInv_step s acc e h1 h2 h3
    have h' := ih (step s e).1 (acc ++ (step s e).2) h.1 h.2.1 h.2.2
    simp only [run]
    exact ⟨h'.1, h'.2.1, fun id => by
      rw [← List.append_assoc]
      exact h'.2.2 id⟩

theorem IdsOk_init : IdsOk init := by
  constructor
  · simp [idsList, init]
  · intro i hi
    simp [idsList, init] at hi

theorem flagsConsistent_init : flagsConsistent init = true := rfl

/-- A settled run with the right identity witnesses a positive count. -/
theorem countSettled_pos {runs : List TaskRun} {id : Nat} {r : TaskRun}
    (hr : r ∈ runs) (hid : r.id = id) (hs : r.settled = true) :
    1 ≤ countSettled id runs := by
  have : r ∈ runs.filter (fun t => t.id == id && t.settled) := by
    rw [List.mem_filter]
    exact ⟨hr, by simp [hid, hs]⟩
  have hlen := List.length_pos.mpr (List.ne_nil_of_mem this)
  simpa [countSettled] using hlen

/-- drainLane keeps the lane within its cap. -/
theorem drainLane_active_le (s : Sys) (h : s.active ≤ s.maxConcurrent) :
    (drainLane s).1.active ≤ (drainLane s).1.maxConcurrent := by
  unfold drainLane
  split
  · exact h
  · exact pump_active_le _ h

/-- The per-event capacity argument: every event preserves
    active ≤ maxConcurrent unless it is a setCommandLaneConcurrency call
    that lowers the cap below the active count. -/
theorem active_le_step (s : Sys) (e : Ev)
    (h : s.active ≤ s.maxConcurrent) (hb : noBadLower s e = true) :
    (step s e).1.active ≤ (step s e).1.maxConcurrent := by
  cases e with
  | enqueue =>
    simp only [step]
    exact drainLane_active_le _ h
  | setConc n =>
    simp only [step]
    apply drainLane_active_le
    simpa [noBadLower] using hb
  | clear => exact h
  | timerFire id0 =>
    rcases hfind : findRun s.runs id0 with _ | r
    · simp only [step, hfind]; exact h
    · by_cases hflag : (r.timerFired || r.timerCleared) = true
      · simp only [step, hfind, hflag, if_true]; exact h
      · by_cases hset : r.settled = true
        · simp only [step, hfind, hflag, hset, if_true, if_false,
            Bool.false_eq_true]
          exact h
        · simp only [step, hfind, hflag, hset, if_false, Bool.false_eq_true]
          apply pump_active_le
          exact Nat.le_trans (Nat.sub_le _ _) h
  | complete id0 ok =>
    rcases hfind : findRun s.runs id0 with _ | r
    · simp only [step, hfind]; exact h
    · by_cases hdone : r.taskDone = true
      · simp only [step, hfind, hdone, if_true]; exact h
      · by_cases hset : r.settled = true
        · simp only [step, hfind, hdone, hset, if_true, if_false,
            Bool.false_eq_true]
          exact h
        · simp only [step, hfind, hdone, hset, if_false, Bool.false_eq_true]
          apply pump_active_le
          exact Nat.le_trans (Nat.sub_le _ _) h
  | effect id0 =>
    rcases hfind : findRun s.runs id0 with _ | r
    · simp only [step, hfind]; exact h
    · by_cases hdone : r.taskDone = true
      · simp only [step, hfind, hdone, if_true]; exact h
      · simp only [step, hfind, hdone, if_false, Bool.false_eq_true]; exact h

/-- Capacity bound along a whole execution without bad lowering calls. -/
theorem active_le_run (s : Sys) (es : List Ev)
    (h : s.active ≤ s.maxConcurrent) (hb : invAlong s es = true) :
    (run s es).1.active ≤ (run s es).1.maxConcurrent := by
  induction es generalizing s with
  | nil => simpa [run] using h
  | cons e es ih =>
    simp only [invAlong, Bool.and_eq_true] at hb
    simp only [run]
    exact ih (step s e).1 (active_le_step s e h hb.1) hb.2

/-- C1 (amended): for a lane within its cap, every sequence of operations in
    which no setCommandLaneConcurrency call lowers the cap below the
    then-current active count keeps active ≤ maxConcurrency at every point
    (every reachable state is itself a valid starting state s of this
    statement); the pump never starts a task at or above the cap.  The
    original claim, which also covered cap-lowering calls made while tasks
    are running, is refuted by claim_C1_counterexample. -/
theorem claim_C1_capacity_invariant (s : Sys) (es : List Ev)
    (h : s.active ≤ s.maxConcurrent) (hb : invAlong s es = true) :
    (run s es).1.active ≤ (run s es).1.maxConcurrent :=
  active_le_run s es h hb

/-- C1 witness: a concrete execution satisfying the hypotheses of
    claim_C1_capacity_invariant. -/
theorem claim_C1_capacity_invariant_witness :
    init.active ≤ init.maxConcurrent ∧
    invAlong init [Ev.setConc 2, Ev.enqueue, Ev.enqueue] = true ∧
    (run init [Ev.setConc 2, Ev.enqueue, Ev.enqueue]).1.active ≤
      (run init [Ev.setConc 2, Ev.enqueue, Ev.enqueue]).1.maxConcurrent :=
  ⟨by decide, by decide,
    claim_C1_capacity_invariant init [Ev.setConc 2, Ev.enqueue, Ev.enqueue]
      (by decide) (by decide)⟩

/-- C1 counterexample: raise the cap to 2, let two tasks start, then lower
    the cap to 1 while both are still running: the lane is left with
    active = 2 above maxConcurrency = 1, so the claimed invariant fails for
    executions that lower the cap. -/
theorem claim_C1_counterexample :
    (run init [Ev.setConc 2, Ev.enqueue, Ev.enqueue, Ev.setConc 1]).1.active = 2 ∧
    (run init [Ev.setConc 2, Ev.enqueue, Ev.enqueue,
      Ev.setConc 1]).1.maxConcurrent = 1 ∧
    ¬((run init [Ev.setConc 2, Ev.enqueue, Ev.enqueue,
        Ev.setConc 1]).1.active ≤
      (run init [Ev.setConc 2, Ev.enqueue, Ev.enqueue,
        Ev.setConc 1]).1.maxConcurrent) := by
  refine ⟨by decide, by decide, by decide⟩

/-- C2: along any execution and for any task identity, the caller's promise
    settles at most once (the settlement observations for that identity number
    at most one), and as soon as either the timeout timer has fired for the
    task's run or its underlying task has finished, exactly one settlement
    has been observed: the timeout path and the completion path are mutually
    exclusive and one of them reaches the caller. -/
theorem claim_C2_single_settle (es : List Ev) (id : Nat) :
    settleCount id (run init es).2 ≤ 1 ∧
    (∀ r ∈ (run init es).1.runs, r.id = id →
      (r.timerFired = true ∨ r.taskDone = true) →
      settleCount id (run init es).2 = 1) := by
  have h := settleInv_run init [] es IdsOk_init flagsConsistent_init
    (fun _ => rfl)
  have hobs : settleCount id (run init es).2 =
      countSettled id (run init es).1.runs := by
    simpa using h.2.2 id
  have hle : countSettled id (run init es).1.runs ≤ 1 :=
    countSettled_le_one id _ (IdsOk_runs_nodup h.1)
  constructor
  · rw [hobs]; exact hle
  · intro r hr hid hflags
    have hfc := (flagsConsistent_iff _).mp h.2.1 r hr
    have hset : r.settled = true := by
      rcases hflags with h1 | h1 <;> simp [h1] at hfc <;> exact hfc
    have hpos := countSettled_pos hr hid hset
    rw [hobs]
    omega

/-- C2 witness: one task enqueued, started and completed; its promise is
    settled exactly once. -/
theorem claim_C2_single_settle_witness :
    settleCount 0 (run init [Ev.enqueue, Ev.complete 0 true]).2 = 1 := by
  have h := claim_C2_single_settle [Ev.enqueue, Ev.complete 0 true] 0
  exact h.2
    { id := 0, settled := true, timerFired := false, timerCleared := true,
      taskDone := true }
    (by decide) (by decide) (Or.inr (by decide))

theorem effectIds_append (o1 o2 : List Obs) :
    effectIds (o1 ++ o2) = effectIds o1 ++ effectIds o2 := by
  simp [effectIds, List.filterMap_append]

theorem effectIds_started (l : List Nat) :
    effectIds (l.map Obs.started) = [] := by
  induction l with
  | nil => rfl
  | cons a t ih =>
    simp only [List.map_cons]
    rw [show effectIds (Obs.started a :: List.map Obs.started t) =
      effectIds (List.map Obs.started t) from rfl]
    exact ih

theorem countUndone_append (r1 r2 : List TaskRun) :
    countUndone (r1 ++ r2) = countUndone r1 + countUndone r2 := by
  simp [countUndone, List.filter_append]

theorem countUndone_newRuns (l : List Nat) :
    countUndone (l.map newRun) = l.length := by
  induction l with
  | nil => rfl
  | cons a t ih => simp [countUndone, List.filter_cons, newRun] at ih ⊢; exact ih

theorem countUndone_cons (a : TaskRun) (t : List TaskRun) :
    countUndone (a :: t) =
      (if a.taskDone = false then 1 else 0) + countUndone t := by
  simp only [countUndone, List.filter_cons]
  by_cases h : a.taskDone = true
  · simp [h]
  · have h' : a.taskDone = false := by simpa using h
    simp [h', Nat.add_comm]

theorem countUndone_pos {runs : List TaskRun} {r : TaskRun}
    (hr : r ∈ runs) (hd : r.taskDone = false) : 1 ≤ countUndone runs := by
  have : r ∈ runs.filter (fun t => !t.taskDone) := by
    rw [List.mem_filter]
    exact ⟨hr, by simp [hd]⟩
  have hlen := List.length_pos.mpr (List.ne_nil_of_mem this)
  simpa [countUndone] using hlen

/-- Finishing the unique unfinished run with a given identity lowers the
    unfinished count by exactly one. -/
theorem countUndone_updateRun_done (runs : List TaskRun) (id : Nat)
    (f : TaskRun → TaskRun) {r : TaskRun}
    (hnd : (runs.map (fun r => r.id)).Nodup)
    (hfind : findRun runs id = some r) (hr : r.taskDone = false)
    (_hfid : ∀ t, (f t).id = t.id) (hfd : ∀ t, (f t).taskDone = true) :
    countUndone (updateRun runs id f) + 1 = countUndone runs := by
  induction runs with
  | nil => simp [findRun] at hfind
  | cons a t ih =>
    simp only [List.map_cons, List.nodup_cons] at hnd
    by_cases ha : (a.id == id) = true
    · have hra : r = a := by
        have : findRun (a :: t) id = some a := by
          simp [findRun, List.find?_cons_of_pos, ha]
        rw [this] at hfind
        exact (Option.some_inj.mp hfind).symm
      have htail : ∀ x ∈ t, x.id ≠ id := by
        intro x hx hxe
        exact hnd.1 (by
          rw [show a.id = id from by simpa using ha, ← hxe]
          exact List.mem_map_of_mem (fun r => r.id) hx)
      have hupd : updateRun t id f = t := updateRun_not_mem t id f htail
      simp only [updateRun, List.map_cons, ha, if_pos]
      rw [show List.map (fun r => if (r.id == id) = true then f r else r) t =
        updateRun t id f from rfl, hupd]
      rw [countUndone_cons, countUndone_cons]
      have hfa : (f a).taskDone = true := hfd a
      have had : a.taskDone = false := by rw [← hra]; exact hr
      simp [hfa, had, Nat.add_comm]
    · have hfind' : findRun t id = some r := by
        simpa [findRun, List.find?_cons_of_neg, ha] using hfind
      simp only [updateRun, List.map_cons, ha, if_neg Bool.false_ne_true]
      rw [show List.map (fun r => if (r.id == id) = true then f r else r) t =
        updateRun t id f from rfl]
      rw [countUndone_cons, countUndone_cons]
      have := ih hnd.2 hfind'
      omega

theorem len_le_one_eq {α : Type} {l : List α} (h : l.length ≤ 1) {a b : α}
    (ha : a ∈ l) (hb : b ∈ l) : a = b := by
  cases l with
  | nil => cases ha
  | cons x t =>
    cases t with
    | nil =>
      rw [List.mem_singleton.mp ha, List.mem_singleton.mp hb]
    | cons y t2 => simp at h

theorem IdsOk_run_lt_queue {s : Sys} (h : IdsOk s) {r : TaskRun} {q : Nat}
    (hr : r ∈ s.runs) (hq : q ∈ s.queue) : r.id < q := by
  have hp : List.Pairwise (· < ·)
      (s.runs.map (fun r => r.id) ++ s.queue) := h.1
  exact (List.pairwise_append.mp hp).2.2 r.id
    (List.mem_map_of_mem (fun r => r.id) hr) q hq

theorem IdsOk_run_lt_nextId {s : Sys} (h : IdsOk s) {r : TaskRun}
    (hr : r ∈ s.runs) : r.id < s.nextId :=
  h.2 r.id (List.mem_append.mpr
    (Or.inl (List.mem_map_of_mem (fun r => r.id) hr)))

theorem nondecreasing_append_one : ∀ (l : List Nat) (a : Nat),
    nondecreasing l = true → (∀ x ∈ l, x ≤ a) →
    nondecreasing (l ++ [a]) = true
  | [], a, _, _ => rfl
  | [x], a, _, hb => by
    have := hb x (List.mem_singleton_self x)
    simp [nondecreasing, this]
  | x :: y :: t, a, hl, hb => by
    simp only [nondecreasing, Bool.and_eq_true, decide_eq_true_eq] at hl
    have htail := nondecreasing_append_one (y :: t) a hl.2
      (fun z hz => hb z (List.mem_cons_of_mem x hz))
    simp only [List.cons_append] at htail ⊢
    simp only [nondecreasing, Bool.and_eq_true, decide_eq_true_eq]
    exact ⟨hl.1, htail⟩

/-- Identity bookkeeping is preserved by every event. -/
theorem IdsOk_step (s : Sys) (e : Ev) (h1 : IdsOk s) : IdsOk (step s e).1 := by
  cases e with
  | enqueue =>
    simp only [step]
    have hl : idsList { s with queue := s.queue ++ [s.nextId], nextId := s.nextId + 1 } = idsList s ++ [s.nextId] := by
      simp [idsList, List.append_assoc]
    apply IdsOk_of_eq (drainLane_idsList _) (drainLane_nextId _)
    constructor
    · rw [hl, List.pairwise_append]
      refine ⟨h1.1, List.pairwise_singleton _ _, ?_⟩
      intro a ha b hb
      rw [List.mem_singleton.mp hb]
      exact h1.2 a ha
    · intro i hi
      rw [hl] at hi
      show i < s.nextId + 1
      rcases List.mem_append.mp hi with hi1 | hi2
      · exact Nat.lt_succ_of_lt (h1.2 i hi1)
      · rw [List.mem_singleton.mp hi2]
        exact Nat.lt_succ_self _
  | setConc n =>
    simp only [step]
    exact IdsOk_of_eq (drainLane_idsList _) (drainLane_nextId _) h1
  | clear =>
    simp only [step]
    have hl : idsList { s with queue := ([] : List Nat) } =
        s.runs.map (fun r => r.id) := by simp [idsList]
    constructor
    · show List.Pairwise _ (idsList { s with queue := ([] : List Nat) })
      rw [hl]
      exact h1.1.sublist (List.sublist_append_left _ _)
    · intro i hi
      rw [show idsList ({ s with queue := [] } : Sys) =
        s.runs.map (fun r => r.id) from hl] at hi
      show i < s.nextId
      exact h1.2 i (List.mem_append.mpr (Or.inl hi))
  | timerFire id0 =>
    rcases hfind : findRun s.runs id0 with _ | r
    · simp only [step, hfind]; exact h1
    · by_cases hflag : (r.timerFired || r.timerCleared) = true
      · simp only [step, hfind, hflag, if_true]; exact h1
      · by_cases hset : r.settled = true
        · simp only [step, hfind, hflag, hset, if_true, if_false,
            Bool.false_eq_true]
          exact IdsOk_of_eq (idsList_updateRun s id0 _ (fun t => rfl)) rfl h1
        · simp only [step, hfind, hflag, hset, if_false, Bool.false_eq_true]
          apply IdsOk_of_eq (pump_idsList _) (pump_nextId _)
          exact IdsOk_of_eq (idsList_updateRun s id0 _ (fun t => rfl)) rfl h1
  | complete id0 ok =>
    rcases hfind : findRun s.runs id0 with _ | r
    · simp only [step, hfind]; exact h1
    · by_cases hdone : r.taskDone = true
      · simp only [step, hfind, hdone, if_true]; exact h1
      · by_cases hset : r.settled = true
        · simp only [step, hfind, hdone, hset, if_true, if_false,
            Bool.false_eq_true]
          exact IdsOk_of_eq (idsList_updateRun s id0 _ (fun t => rfl)) rfl h1
        · simp only [step, hfind, hdone, hset, if_false, Bool.false_eq_true]
          apply IdsOk_of_eq (pump_idsList _) (pump_nextId _)
          exact IdsOk_of_eq (idsList_updateRun s id0 _ (fun t => rfl)) rfl h1
  | effect id0 =>
    rcases hfind : findRun s.runs id0 with _ | r
    · simp only [step, hfind]; exact h1
    · by_cases hdone : r.taskDone = true
      · simp only [step, hfind, hdone, if_true]; exact h1
      · simp only [step, hfind, hdone, if_false, Bool.false_eq_true]; exact h1

theorem startedIds_append (o1 o2 : List Obs) :
    startedIds (o1 ++ o2) = startedIds o1 ++ startedIds o2 := by
  simp [startedIds, List.filterMap_append]

theorem enqueuedIds_append (o1 o2 : List Obs) :
    enqueuedIds (o1 ++ o2) = enqueuedIds o1 ++ enqueuedIds o2 := by
  simp [enqueuedIds, List.filterMap_append]

theorem startedIds_map_started (l : List Nat) :
    startedIds (l.map Obs.started) = l := by
  induction l with
  | nil => rfl
  | cons a t ih =>
    simp only [List.map_cons]
    rw [show startedIds (Obs.started a :: List.map Obs.started t) =
      a :: startedIds (List.map Obs.started t) from rfl, ih]

theorem enqueuedIds_map_started (l : List Nat) :
    enqueuedIds (l.map Obs.started) = [] := by
  induction l with
  | nil => rfl
  | cons a t ih =>
    simp only [List.map_cons]
    rw [show enqueuedIds (Obs.started a :: List.map Obs.started t) =
      enqueuedIds (List.map Obs.started t) from rfl, ih]

/-- The identities the pump starts, followed by what it leaves queued, are
    exactly what was queued. -/
theorem pump_startQueue (s : Sys) :
    startedIds (pump s).2 ++ (pump s).1.queue = s.queue := by
  rw [pump_obs, pump_queue, startedIds_map_started]
  exact List.take_append_drop _ _

theorem drainLane_startQueue (s : Sys) :
    startedIds (drainLane s).2 ++ (drainLane s).1.queue = s.queue := by
  unfold drainLane
  split
  · rfl
  · rw [pump_startQueue]

theorem pump_enqueuedIds (s : Sys) : enqueuedIds (pump s).2 = [] := by
  rw [pump_obs, enqueuedIds_map_started]

theorem drainLane_enqueuedIds (s : Sys) : enqueuedIds (drainLane s).2 = [] := by
  unfold drainLane
  split
  · rfl
  · rw [pump_enqueuedIds]

/-- FIFO bookkeeping: the identities started so far, followed by the pending
    queue, form a subsequence of the identities enqueued so far. -/
theorem fifo_step (s : Sys) (acc : List Obs) (e : Ev)
    (h : List.Sublist (startedIds acc ++ s.queue) (enqueuedIds acc)) :
    List.Sublist
      (startedIds (acc ++ (step s e).2) ++ (step s e).1.queue)
      (enqueuedIds (acc ++ (step s e).2)) := by
  cases e with
  | enqueue =>
    simp only [step]
    rw [startedIds_append, enqueuedIds_append]
    rw [show startedIds (Obs.enqueued s.nextId :: (drainLane _).2) =
      startedIds ((drainLane _).2) from rfl]
    rw [show enqueuedIds (Obs.enqueued s.nextId :: (drainLane _).2) =
      s.nextId :: enqueuedIds ((drainLane _).2) from rfl]
    rw [drainLane_enqueuedIds, List.append_assoc, drainLane_startQueue]
    rw [show (s.nextId :: ([] : List Nat)) = [s.nextId] from rfl]
    rw [show ({ s with queue := s.queue ++ [s.nextId], nextId := s.nextId + 1 } : Sys).queue = s.queue ++ [s.nextId] from rfl]
    rw [← List.append_assoc]
    exact List.Sublist.append h (List.Sublist.refl [s.nextId])
  | setConc n =>
    simp only [step]
    rw [startedIds_append, enqueuedIds_append, drainLane_enqueuedIds,
      List.append_assoc, drainLane_startQueue, List.append_nil]
    exact h
  | clear =>
    simp only [step]
    simp only [List.append_nil]
    exact List.Sublist.trans (List.sublist_append_left _ _) h
  | timerFire id0 =>
    rcases hfind : findRun s.runs id0 with _ | r
    · simp only [step, hfind]
      rw [List.append_nil]
      exact h
    · by_cases hflag : (r.timerFired || r.timerCleared) = true
      · simp only [step, hfind, hflag, if_true]
        rw [List.append_nil]
        exact h
      · by_cases hset : r.settled = true
        · simp only [step, hfind, hflag, hset, if_true, if_false,
            Bool.false_eq_true]
          rw [List.append_nil]
          exact h
        · simp only [step, hfind, hflag, hset, if_false, Bool.false_eq_true]
          rw [← List.append_assoc, startedIds_append, enqueuedIds_append,
            startedIds_append, enqueuedIds_append, pump_enqueuedIds]
          rw [show startedIds [Obs.rejectedTimeout id0] = [] from rfl]
          rw [show enqueuedIds [Obs.rejectedTimeout id0] = [] from rfl]
          rw [List.append_nil, List.append_nil, List.append_nil,
            List.append_assoc, pump_startQueue]
          exact h
  | complete id0 ok =>
    rcases hfind : findRun s.runs id0 with _ | r
    · simp only [step, hfind]
      rw [List.append_nil]
      exact h
    · by_cases hdone : r.taskDone = true
      · simp only [step, hfind, hdone, if_true]
        rw [List.append_nil]
        exact h
      · by_cases hset : r.settled = true
        · simp only [step, hfind, hdone, hset, if_true, if_false,
            Bool.false_eq_true]
          rw [List.append_nil]
          exact h
        · simp only [step, hfind, hdone, hset, if_false, Bool.false_eq_true]
          have hs1 : startedIds [if ok then Obs.resolved id0
              else Obs.rejectedError id0] = [] := by cases ok <;> rfl
          have hs2 : enqueuedIds [if ok then Obs.resolved id0
              else Obs.rejectedError id0] = [] := by cases ok <;> rfl
          rw [← List.append_assoc, startedIds_append, enqueuedIds_append,
            startedIds_append, enqueuedIds_append, pump_enqueuedIds, hs1, hs2]
          rw [List.append_nil, List.append_nil, List.append_nil,
            List.append_assoc, pump_startQueue]
          exact h
  | effect id0 =>
    rcases hfind : findRun s.runs id0 with _ | r
    · simp only [step, hfind]
      rw [List.append_nil]
      exact h
    · by_cases hdone : r.taskDone = true
      · simp only [step, hfind, hdone, if_true]
        rw [List.append_nil]
        exact h
      · simp only [step, hfind, hdone, if_false, Bool.false_eq_true]
        rw [startedIds_append, enqueuedIds_append]
        rw [show startedIds [Obs.effected id0] = [] from rfl]
        rw [show enqueuedIds [Obs.effected id0] = [] from rfl]
        rw [List.append_nil, List.append_nil]
        exact h

/-- fifo_step folded over a whole event list. -/
theorem fifo_run (s : Sys) (acc : List Obs) (es : List Ev)
    (h : List.Sublist (startedIds acc ++ s.queue) (enqueuedIds acc)) :
    List.Sublist
      (startedIds (acc ++ (run s es).2) ++ (run s es).1.queue)
      (enqueuedIds (acc ++ (run s es).2)) := by
  induction es generalizing s acc with
  | nil => simpa [run] using h
  | cons e es ih =>
    simp only [run]
    have h1 := fifo_step s acc e h
    have h2 := ih (step s e).1 (acc ++ (step s e).2) h1
    rw [← List.append_assoc]
    exact h2

theorem pump_effectIds (s : Sys) : effectIds (pump s).2 = [] := by
  rw [pump_obs, effectIds_started]

theorem drainLane_effectIds (s : Sys) : effectIds (drainLane s).2 = [] := by
  unfold drainLane
  split
  · rfl
  · rw [pump_effectIds]

/-- SeqInv only inspects the trace through its side-effect identities. -/
theorem SeqInv_obs_congr {s : Sys} {obs1 obs2 : List Obs}
    (he : effectIds obs2 = effectIds obs1) (h : SeqInv s obs1) :
    SeqInv s obs2 := by
  unfold SeqInv at h ⊢
  rw [he]
  exact h

/-- The pump preserves the sequential invariant: starting queued work under a
    cap of one keeps the counters and bounds intact. -/
theorem seqInv_pump (s : Sys) (obs : List Obs) (h : SeqInv s obs) :
    SeqInv (pump s).1 obs := by
  unfold SeqInv at h
  obtain ⟨hmax, hflags, hact, hone, hbr, hbq, hbn, hnd⟩ := h
  rw [pump_eq]
  unfold SeqInv
  refine ⟨hmax, ?_, ?_, ?_, ?_, ?_, hbn, hnd⟩
  · intro r hr
    rcases List.mem_append.mp hr with h1 | h2
    · exact hflags r h1
    · rcases List.mem_map.mp h2 with ⟨i, _, hri⟩
      rw [← hri]
      exact ⟨rfl, rfl⟩
  · show s.active + pumpCount s =
      countUndone (s.runs ++ (s.queue.take (pumpCount s)).map newRun)
    rw [countUndone_append, countUndone_newRuns, List.length_take]
    have hk : pumpCount s ≤ s.queue.length := by
      simp only [pumpCount]
      omega
    omega
  · show s.active + pumpCount s ≤ 1
    have : pumpCount s ≤ s.maxConcurrent - s.active := by
      simp only [pumpCount]
      omega
    omega
  · intro e he r hr hund
    rcases List.mem_append.mp hr with h1 | h2
    · exact hbr e he r h1 hund
    · rcases List.mem_map.mp h2 with ⟨i, hi, hri⟩
      have hiq : i ∈ s.queue := List.take_subset _ _ hi
      rw [← hri]
      exact Nat.le_of_lt (hbq e he i hiq)
  · intro e he q hq
    have hqq : q ∈ s.queue := List.drop_subset _ _ hq
    exact hbq e he q hqq

theorem seqInv_drain (s : Sys) (obs : List Obs) (h : SeqInv s obs) :
    SeqInv (drainLane s).1 obs := by
  unfold drainLane
  split
  · exact h
  · exact seqInv_pump _ _ h

/-- One sequential event (no setConcurrency, no timer firing) preserves the
    sequential invariant. -/
theorem seqInv_step (s : Sys) (acc : List Obs) (e : Ev)
    (hIds : IdsOk s) (hInv : SeqInv s acc) (he : sequentialEv e = true) :
    SeqInv (step s e).1 (acc ++ (step s e).2) := by
  cases e with
  | setConc n => simp [sequentialEv] at he
  | timerFire id0 => simp [sequentialEv] at he
  | enqueue =>
    simp only [step]
    refine SeqInv_obs_congr ?_ (seqInv_drain _ acc ?_)
    · rw [effectIds_append]
      rw [show effectIds (Obs.enqueued s.nextId :: (drainLane _).2) =
        effectIds ((drainLane _).2) from rfl]
      rw [drainLane_effectIds, List.append_nil]
    · unfold SeqInv at hInv ⊢
      obtain ⟨hmax, hflags, hact, hone, hbr, hbq, hbn, hnd⟩ := hInv
      refine ⟨hmax, hflags, hact, hone, hbr, ?_, ?_, hnd⟩
      · intro e he q hq
        rcases List.mem_append.mp hq with h1 | h2
        · exact hbq e he q h1
        · rw [List.mem_singleton.mp h2]
          exact hbn e he
      · intro e he
        exact Nat.lt_succ_of_lt (hbn e he)
  | clear =>
    simp only [step]
    refine SeqInv_obs_congr (by rw [List.append_nil]) ?_
    unfold SeqInv at hInv ⊢
    obtain ⟨hmax, hflags, hact, hone, hbr, hbq, hbn, hnd⟩ := hInv
    refine ⟨hmax, hflags, hact, hone, hbr, ?_, hbn, hnd⟩
    intro e he q hq
    exact absurd hq (List.not_mem_nil q)
  | complete id0 ok =>
    rcases hfind : findRun s.runs id0 with _ | r
    · simp only [step, hfind]
      exact SeqInv_obs_congr (by rw [List.append_nil]) hInv
    · obtain ⟨hrmem, hrid⟩ := findRun_mem hfind
      by_cases hdone : r.taskDone = true
      · simp only [step, hfind, hdone, if_true]
        exact SeqInv_obs_congr (by rw [List.append_nil]) hInv
      · unfold SeqInv at hInv
        obtain ⟨hmax, hflags, hact, hone, hbr, hbq, hbn, hnd⟩ := hInv
        have hrd : r.taskDone = false := by simpa using hdone
        have hset : r.settled = false := by
          rw [(hflags r hrmem).1]
          exact hrd
        simp only [step, hfind, hdone, hset, if_false, Bool.false_eq_true]
        refine SeqInv_obs_congr ?_ (seqInv_pump _ acc ?_)
        · rw [effectIds_append, effectIds_append, pump_effectIds]
          rw [show effectIds [if ok then Obs.resolved id0
            else Obs.rejectedError id0] = [] from by cases ok <;> rfl]
          rw [List.append_nil, List.append_nil]
        · unfold SeqInv
          have hcd := countUndone_updateRun_done s.runs id0
            (fun t => { t with taskDone := true, settled := true, timerCleared := true })
            (IdsOk_runs_nodup hIds) hfind hrd (fun t => rfl) (fun t => rfl)
          have hpos := countUndone_pos hrmem hrd
          refine ⟨hmax, ?_, ?_, ?_, ?_, hbq, hbn, hnd⟩
          · intro x hx
            rcases mem_updateRun hx with ⟨y, hy, hc⟩
            rcases hc with ⟨hxy, _⟩ | ⟨hxy, hyid⟩
            · rw [hxy]
              exact hflags y hy
            · have hyr : y = r := findRun_unique (IdsOk_runs_nodup hIds)
                hfind y hy (by simpa using hyid)
              rw [hxy, hyr]
              exact ⟨rfl, (hflags r hrmem).2⟩
          · show s.active - 1 = countUndone (updateRun s.runs id0 _)
            omega
          · show s.active - 1 ≤ 1
            omega
          · intro e he x hx hund
            rcases mem_updateRun hx with ⟨y, hy, hc⟩
            rcases hc with ⟨hxy, _⟩ | ⟨hxy, hyid⟩
            · rw [hxy]
              rw [hxy] at hund
              exact hbr e he y hy hund
            · exfalso
              rw [hxy] at hund
              simp at hund
  | effect id0 =>
    rcases hfind : findRun s.runs id0 with _ | r
    · simp only [step, hfind]
      exact SeqInv_obs_congr (by rw [List.append_nil]) hInv
    · obtain ⟨hrmem, hrid⟩ := findRun_mem hfind
      by_cases hdone : r.taskDone = true
      · simp only [step, hfind, hdone, if_true]
        exact SeqInv_obs_congr (by rw [List.append_nil]) hInv
      · unfold SeqInv at hInv
        obtain ⟨hmax, hflags, hact, hone, hbr, hbq, hbn, hnd⟩ := hInv
        have hrd : r.taskDone = false := by simpa using hdone
        simp only [step, hfind, hdone, if_false, Bool.false_eq_true]
        unfold SeqInv
        have heff : effectIds (acc ++ [Obs.effected id0]) =
            effectIds acc ++ [id0] := by
          rw [effectIds_append]
          rfl
        refine ⟨hmax, hflags, hact, hone, ?_, ?_, ?_, ?_⟩
        · rw [heff]
          intro e he x hx hund
          rcases List.mem_append.mp he with hold | hnew
          · exact hbr e hold x hx hund
          · have heq : e = id0 := List.mem_singleton.mp hnew
            have hlen : (s.runs.filter (fun t => !t.taskDone)).length ≤ 1 := by
              have h1 := hone
              rw [hact] at h1
              exact h1
            have hxr : x = r :=
              len_le_one_eq hlen
                (List.mem_filter.mpr ⟨hx, by simp [hund]⟩)
                (List.mem_filter.mpr ⟨hrmem, by simp [hrd]⟩)
            rw [heq, hxr, ← hrid]
        · rw [heff]
          intro e he q hq
          rcases List.mem_append.mp he with hold | hnew
          · exact hbq e hold q hq
          · rw [List.mem_singleton.mp hnew, ← hrid]
            exact IdsOk_run_lt_queue hIds hrmem hq
        · rw [heff]
          intro e he
          rcases List.mem_append.mp he with hold | hnew
          · exact hbn e hold
          · rw [List.mem_singleton.mp hnew, ← hrid]
            exact IdsOk_run_lt_nextId hIds hrmem
        · rw [heff]
          apply nondecreasing_append_one _ _ hnd
          intro x hx
          have := hbr x hx r hrmem hrd
          rw [← hrid]
          exact this

/-- seqInv_step folded over a whole sequential event list. -/
theorem seqInv_run (s : Sys) (acc : List Obs) (es : List Ev)
    (hIds : IdsOk s) (hInv : SeqInv s acc)
    (hall : es.all sequentialEv = true) :
    SeqInv (run s es).1 (acc ++ (run s es).2) := by
  induction es generalizing s acc with
  | nil =>
    simp only [run]
    exact SeqInv_obs_congr (by rw [List.append_nil]) hInv
  | cons e es ih =>
    simp only [List.all_cons, Bool.and_eq_true] at hall
    simp only [run]
    have h1 := seqInv_step s acc e hIds hInv hall.1
    have h2 := ih (step s e).1 (acc ++ (step s e).2)
      (IdsOk_step s e hIds) h1 hall.2
    exact SeqInv_obs_congr (by rw [List.append_assoc]) h2

theorem SeqInv_init : SeqInv init [] := by
  unfold SeqInv
  refine ⟨rfl, ?_, rfl, by decide, ?_, ?_, ?_, rfl⟩
  · intro r hr
    exact absurd hr (List.not_mem_nil r)
  · intro e he
    exact absurd he (List.not_mem_nil e)
  · intro e he
    exact absurd he (List.not_mem_nil e)
  · intro e he
    exact absurd he (List.not_mem_nil e)

/-- C3 (amended): within one lane, task starts occur in strict FIFO enqueue
    order subject to capacity: along any execution the sequence of started
    identities is a subsequence of the sequence of enqueued identities
    (identities are allocated in enqueue order).  Moreover, in the sequential
    scenario - maxConcurrency left at its initial value 1 and no task hitting
    its timeout - the observed side effects appear grouped in strict enqueue
    order (their identity sequence is nondecreasing).  The unamended claim,
    without the no-timeout proviso, is refuted by claim_C3_counterexample. -/
theorem claim_C3_fifo_order (es : List Ev) :
    List.Sublist (startedIds (run init es).2) (enqueuedIds (run init es).2) ∧
    (es.all sequentialEv = true →
      nondecreasing (effectIds (run init es).2) = true) := by
  constructor
  · have h := fifo_run init [] es (List.nil_sublist _)
    simp only [List.nil_append] at h
    exact List.Sublist.trans (List.sublist_append_left _ _) h
  · intro hall
    have h := seqInv_run init [] es IdsOk_init SeqInv_init hall
    have h8 := h.2.2.2.2.2.2.2
    simpa using h8

/-- C3 witness: two tasks run back to back under the cap of one; starts and
    side effects are observed in enqueue order. -/
theorem claim_C3_fifo_order_witness :
    List.Sublist
      (startedIds (run init [Ev.enqueue, Ev.enqueue, Ev.effect 0,
        Ev.complete 0 true, Ev.effect 1, Ev.complete 1 false]).2)
      (enqueuedIds (run init [Ev.enqueue, Ev.enqueue, Ev.effect 0,
        Ev.complete 0 true, Ev.effect 1, Ev.complete 1 false]).2) ∧
    nondecreasing (effectIds (run init [Ev.enqueue, Ev.enqueue, Ev.effect 0,
      Ev.complete 0 true, Ev.effect 1, Ev.complete 1 false]).2) = true :=
  ⟨(claim_C3_fifo_order [Ev.enqueue, Ev.enqueue, Ev.effect 0,
      Ev.complete 0 true, Ev.effect 1, Ev.complete 1 false]).1,
   (claim_C3_fifo_order [Ev.enqueue, Ev.enqueue, Ev.effect 0,
      Ev.complete 0 true, Ev.effect 1, Ev.complete 1 false]).2 (by decide)⟩

/-- C3 counterexample: on a lane whose cap stays 1, task 0 starts, its timer
    fires (the queue is released and task 1 starts) while task 0 keeps
    running; task 1 then emits a side effect before a late side effect of
    task 0, so side effects are not observed in enqueue order. -/
theorem claim_C3_counterexample :
    (run init [Ev.enqueue, Ev.enqueue, Ev.timerFire 0, Ev.effect 1,
      Ev.effect 0]).1.maxConcurrent = 1 ∧
    enqueuedIds (run init [Ev.enqueue, Ev.enqueue, Ev.timerFire 0,
      Ev.effect 1, Ev.effect 0]).2 = [0, 1] ∧
    effectIds (run init [Ev.enqueue, Ev.enqueue, Ev.timerFire 0,
      Ev.effect 1, Ev.effect 0]).2 = [1, 0] ∧
    nondecreasing (effectIds (run init [Ev.enqueue, Ev.enqueue,
      Ev.timerFire 0, Ev.effect 1, Ev.effect 0]).2) = false := by
  refine ⟨by decide, by decide, by decide, by decide⟩

theorem findRun_append (l1 l2 : List TaskRun) (id : Nat) :
    findRun (l1 ++ l2) id = (findRun l1 id).or (findRun l2 id) := by
  simp [findRun, List.find?_append]

theorem findRun_none_iff (runs : List TaskRun) (id : Nat) :
    findRun runs id = none ↔ ∀ x ∈ runs, (x.id == id) = false := by
  simp [findRun, List.find?_eq_none]

theorem findRun_newRuns (l : List Nat) (id : Nat) (h : id ∉ l) :
    findRun (l.map newRun) id = none := by
  rw [findRun_none_iff]
  intro x hx
  rcases List.mem_map.mp hx with ⟨i, hi, hxi⟩
  rw [← hxi]
  have : i ≠ id := fun hii => h (hii ▸ hi)
  simpa [newRun] using this

theorem findRun_none_updateRun (runs : List TaskRun) (id id0 : Nat)
    (f : TaskRun → TaskRun) (hf : ∀ t, (f t).id = t.id)
    (h : findRun runs id = none) :
    findRun (updateRun runs id0 f) id = none := by
  rw [findRun_none_iff] at h ⊢
  intro x hx
  rcases mem_updateRun hx with ⟨y, hy, hc⟩
  rcases hc with ⟨hxy, _⟩ | ⟨hxy, _⟩
  · rw [hxy]; exact h y hy
  · rw [hxy]
    rw [show (f y).id = y.id from hf y]
    exact h y hy

theorem findRun_updateRun (runs : List TaskRun) (id : Nat)
    (f : TaskRun → TaskRun) (hf : ∀ t, (f t).id = t.id) :
    findRun (updateRun runs id f) id = (findRun runs id).map f := by
  induction runs with
  | nil => rfl
  | cons a t ih =>
    by_cases ha : (a.id == id) = true
    · have h1 : updateRun (a :: t) id f = f a :: updateRun t id f := by
        simp only [updateRun, List.map_cons, if_pos ha]
      have h2 : findRun (a :: t) id = some a := by
        simp [findRun, List.find?_cons_of_pos, ha]
      have hfa : ((f a).id == id) = true := by rw [hf a]; exact ha
      rw [h1, h2]
      simp [findRun, List.find?_cons_of_pos, hfa]
    · have h1 : updateRun (a :: t) id f = a :: updateRun t id f := by
        simp only [updateRun, List.map_cons, if_neg ha]
      have h2 : findRun (a :: t) id = findRun t id := by
        simp [findRun, List.find?_cons_of_neg, ha]
      rw [h1, h2, ← ih]
      simp [findRun, List.find?_cons_of_neg, ha]

/-- pump only adds the number of started tasks to the active count. -/
theorem pump_active (s : Sys) : (pump s).1.active = s.active + pumpCount s := by
  rw [pump_eq]

/-- C6: when the timeout timer fires for a launched, unsettled task whose
    timer is pending, within that one synchronous turn the lane frees the
    slot and the pump starts the next queued task (the lane was within its
    cap), the new active count is the decremented count plus the tasks just
    started, and only afterwards is the caller's promise rejected with the
    timeout error (the rejection is the last observation of the turn and the
    only settlement for this task).  The run stays launched with its settled
    flag set while its underlying task is unchanged (still running), and the
    turn in which that task eventually settles emits no observation at all:
    its outcome is discarded. -/
theorem claim_C6_timeout_releases_lane (s : Sys) (id q : Nat) (qs : List Nat)
    (r : TaskRun)
    (hfind : findRun s.runs id = some r)
    (hset : r.settled = false) (htf : r.timerFired = false)
    (htc : r.timerCleared = false)
    (hq : s.queue = q :: qs)
    (hact1 : 1 ≤ s.active) (hcap : s.active ≤ s.maxConcurrent) :
    (step s (Ev.timerFire id)).1.active =
      s.active - 1 + (startedIds (step s (Ev.timerFire id)).2).length ∧
    Obs.started q ∈ (step s (Ev.timerFire id)).2 ∧
    (step s (Ev.timerFire id)).2.getLast? = some (Obs.rejectedTimeout id) ∧
    settleCount id (step s (Ev.timerFire id)).2 = 1 ∧
    findRun (step s (Ev.timerFire id)).1.runs id =
      some { r with timerFired := true, settled := true } ∧
    (∀ ok, (step (step s (Ev.timerFire id)).1 (Ev.complete id ok)).2 = []) := by
  have hflag : (r.timerFired || r.timerCleared) = false := by
    rw [htf, htc]; rfl
  simp only [step, hfind, hflag, hset, if_false, Bool.false_eq_true]
  set s2 : Sys := { s with
    runs := updateRun s.runs id
      (fun t => { t with timerFired := true, settled := true }),
    active := s.active - 1 } with hs2
  have hq2 : s2.queue = q :: qs := hq
  have hm2 : s2.maxConcurrent = s.maxConcurrent := rfl
  have ha2 : s2.active = s.active - 1 := rfl
  have hKle : pumpCount s2 ≤ s2.queue.length := by
    simp only [pumpCount]
    exact Nat.min_le_right _ _
  have hKpos : 1 ≤ pumpCount s2 := by
    simp only [pumpCount, hq2, hq, List.length_cons]
    omega
  have htake : s2.queue.take (pumpCount s2) =
      q :: qs.take (pumpCount s2 - 1) := by
    rcases Nat.exists_eq_add_of_le hKpos with ⟨k', hk'⟩
    have hsub : k' + 1 - 1 = k' := by omega
    rw [hq2, hk', Nat.add_comm 1 k', hsub, List.take_succ_cons]
  have hfrun : findRun (pump s2).1.runs id =
      some { r with timerFired := true, settled := true } := by
    rw [pump_runs, findRun_append]
    rw [show s2.runs = updateRun s.runs id
      (fun t => { t with timerFired := true, settled := true }) from rfl]
    rw [findRun_updateRun s.runs id
      (fun t => { t with timerFired := true, settled := true })
      (fun t => rfl), hfind]
    rfl
  refine ⟨?_, ?_, ?_, ?_, hfrun, ?_⟩
  · rw [startedIds_append, pump_obs, startedIds_map_started]
    rw [show startedIds [Obs.rejectedTimeout id] = [] from rfl, List.append_nil]
    rw [List.length_take, pump_active]
    have h2 : s2.active = s.active - 1 := rfl
    omega
  · apply List.mem_append.mpr
    left
    rw [pump_obs, htake]
    exact List.mem_map_of_mem Obs.started (List.mem_cons_self _ _)
  · exact List.getLast?_concat _
  · rw [settleCount_append, pump_settleObs, settleCount_cons,
      settleCount_nil, isSettleFor_rejectedTimeout]
    simp
  · intro ok
    by_cases hd : r.taskDone = true
    · simp [step, hfrun, hd]
    · simp [step, hfrun, hd]

/-- C6 witness: two queued tasks under cap 1; the first one's timer fires,
    the second starts in the same turn, the rejection comes last, the first
    task's run is settled but still unfinished, and its later completion is
    silent. -/
theorem claim_C6_timeout_releases_lane_witness :
    ((step (run init [Ev.enqueue, Ev.enqueue]).1 (Ev.timerFire 0)).1.active =
      (run init [Ev.enqueue, Ev.enqueue]).1.active - 1 +
        (startedIds (step (run init [Ev.enqueue, Ev.enqueue]).1
          (Ev.timerFire 0)).2).length) ∧
    Obs.started 1 ∈
      (step (run init [Ev.enqueue, Ev.enqueue]).1 (Ev.timerFire 0)).2 ∧
    (∀ ok, (step (step (run init [Ev.enqueue, Ev.enqueue]).1
      (Ev.timerFire 0)).1 (Ev.complete 0 ok)).2 = []) := by
  have h := claim_C6_timeout_releases_lane
    (run init [Ev.enqueue, Ev.enqueue]).1 0 1 [] (newRun 0)
    (by decide) (by decide) (by decide) (by decide) (by decide)
    (by decide) (by decide)
  exact ⟨h.1, h.2.1, h.2.2.2.2.2⟩

/-- A task identity that is neither queued nor launched stays that way
    through pump, which also emits no settlement for it. -/
theorem gone_pump (s : Sys) (id : Nat)
    (hq : id ∉ s.queue) (hnr : findRun s.runs id = none) :
    id ∉ (pump s).1.queue ∧ findRun (pump s).1.runs id = none ∧
      settleCount id (pump s).2 = 0 := by
  refine ⟨?_, ?_, ?_⟩
  · rw [pump_queue]
    intro hmem
    exact hq (List.drop_subset _ _ hmem)
  · rw [pump_runs, findRun_append, hnr]
    rw [findRun_newRuns _ id (fun hmem => hq (List.take_subset _ _ hmem))]
    rfl
  · rw [pump_obs, settleCount_started]

theorem gone_drain (s : Sys) (id : Nat)
    (hq : id ∉ s.queue) (hnr : findRun s.runs id = none) :
    id ∉ (drainLane s).1.queue ∧ findRun (drainLane s).1.runs id = none ∧
      settleCount id (drainLane s).2 = 0 := by
  unfold drainLane
  split
  · exact ⟨hq, hnr, rfl⟩
  · exact gone_pump _ id hq hnr

/-- A task identity that is neither queued nor launched and below the
    allocator is never settled by any event, and remains in that state. -/
theorem gone_step (s : Sys) (id : Nat) (e : Ev)
    (hq : id ∉ s.queue) (hnr : findRun s.runs id = none)
    (hfresh : id < s.nextId) :
    id ∉ (step s e).1.queue ∧ findRun (step s e).1.runs id = none ∧
      id < (step s e).1.nextId ∧ settleCount id (step s e).2 = 0 := by
  cases e with
  | enqueue =>
    simp only [step]
    have hq1 : id ∉ s.queue ++ [s.nextId] := by
      intro hmem
      rcases List.mem_append.mp hmem with h1 | h2
      · exact hq h1
      · rw [List.mem_singleton.mp h2] at hfresh
        exact Nat.lt_irrefl _ hfresh
    have hg := gone_drain
      { s with queue := s.queue ++ [s.nextId], nextId := s.nextId + 1 }
      id hq1 hnr
    refine ⟨hg.1, hg.2.1, ?_, ?_⟩
    · rw [drainLane_nextId]
      exact Nat.lt_succ_of_lt hfresh
    · rw [settleCount_cons, isSettleFor_enqueued, hg.2.2]
      rfl
  | setConc n =>
    simp only [step]
    have hg := gone_drain { s with maxConcurrent := (max 1 n).toNat } id hq hnr
    refine ⟨hg.1, hg.2.1, ?_, hg.2.2⟩
    rw [drainLane_nextId]
    exact hfresh
  | clear =>
    simp only [step]
    exact ⟨List.not_mem_nil id, hnr, hfresh, rfl⟩
  | timerFire id0 =>
    rcases hfind : findRun s.runs id0 with _ | r
    · simp only [step, hfind]
      exact ⟨hq, hnr, hfresh, rfl⟩
    · have hne : (id0 == id) = false := by
        have : id0 ≠ id := by
          intro hii
          rw [hii, hnr] at hfind
          exact Option.noConfusion hfind
        simpa using this
      by_cases hflag : (r.timerFired || r.timerCleared) = true
      · simp only [step, hfind, hflag, if_true]
        exact ⟨hq, hnr, hfresh, rfl⟩
      · by_cases hset : r.settled = true
        · simp only [step, hfind, hflag, hset, if_true, if_false,
            Bool.false_eq_true]
          exact ⟨hq, findRun_none_updateRun s.runs id id0 _
            (fun t => rfl) hnr, hfresh, rfl⟩
        · simp only [step, hfind, hflag, hset, if_false, Bool.false_eq_true]
          have hg := gone_pump
            { s with runs := updateRun s.runs id0 (fun t => { t with timerFired := true, settled := true }), active := s.active - 1 }
            id hq
            (findRun_none_updateRun s.runs id id0 _ (fun t => rfl) hnr)
          refine ⟨hg.1, hg.2.1, ?_, ?_⟩
          · rw [pump_nextId]
            exact hfresh
          · rw [settleCount_append, hg.2.2, settleCount_cons, settleCount_nil,
              isSettleFor_rejectedTimeout, hne]
            rfl
  | complete id0 ok =>
    rcases hfind : findRun s.runs id0 with _ | r
    · simp only [step, hfind]
      exact ⟨hq, hnr, hfresh, rfl⟩
    · have hne : (id0 == id) = false := by
        have : id0 ≠ id := by
          intro hii
          rw [hii, hnr] at hfind
          exact Option.noConfusion hfind
        simpa using this
      by_cases hdone : r.taskDone = true
      · simp only [step, hfind, hdone, if_true]
        exact ⟨hq, hnr, hfresh, rfl⟩
      · by_cases hset : r.settled = true
        · simp only [step, hfind, hdone, hset, if_true, if_false,
            Bool.false_eq_true]
          exact ⟨hq, findRun_none_updateRun s.runs id id0 _
            (fun t => rfl) hnr, hfresh, rfl⟩
        · simp only [step, hfind, hdone, hset, if_false, Bool.false_eq_true]
          have hg := gone_pump
            { s with runs := updateRun s.runs id0 (fun t => { t with taskDone := true, settled := true, timerCleared := true }), active := s.active - 1 }
            id hq
            (findRun_none_updateRun s.runs id id0 _ (fun t => rfl) hnr)
          refine ⟨hg.1, hg.2.1, ?_, ?_⟩
          · rw [pump_nextId]
            exact hfresh
          · rw [settleCount_append, hg.2.2, settleCount_cons, settleCount_nil]
            rw [show isSettleFor id (if ok then Obs.resolved id0
              else Obs.rejectedError id0) = (id0 == id) from by cases ok <;> rfl]
            rw [hne]
            rfl
  | effect id0 =>
    rcases hfind : findRun s.runs id0 with _ | r
    · simp only [step, hfind]
      exact ⟨hq, hnr, hfresh, rfl⟩
    · by_cases hdone : r.taskDone = true
      · simp only [step, hfind, hdone, if_true]
        exact ⟨hq, hnr, hfresh, rfl⟩
      · simp only [step, hfind, hdone, if_false, Bool.false_eq_true]
        refine ⟨hq, hnr, hfresh, ?_⟩
        rw [settleCount_cons, isSettleFor_effected, settleCount_nil]
        rfl

/-- gone_step folded over a whole event list. -/
theorem gone_run (s : Sys) (id : Nat) (es : List Ev)
    (hq : id ∉ s.queue) (hnr : findRun s.runs id = none)
    (hfresh : id < s.nextId) :
    settleCount id (run s es).2 = 0 := by
  induction es generalizing s with
  | nil => rfl
  | cons e es ih =>
    simp only [run]
    rw [settleCount_append]
    have hg := gone_step s id e hq hnr hfresh
    rw [hg.2.2.2, ih (step s e).1 hg.1 hg.2.1 hg.2.2.1]

/-- C9: clearCommandLane empties the queue and emits no observation, and for
    any task that was enqueued but not yet started when the clear ran (it sits
    in the queue with no launched run and was allocated by this lane), no
    settlement of its promise is ever observed along any continuation of the
    execution: the caller awaits forever. -/
theorem claim_C9_cleared_never_settles (s : Sys) (id : Nat) (es : List Ev)
    (hq : id ∈ s.queue) (hnr : findRun s.runs id = none)
    (hfresh : id < s.nextId) :
    (step s Ev.clear).1.queue = [] ∧ (step s Ev.clear).2 = [] ∧
      settleCount id (run (step s Ev.clear).1 es).2 = 0 := by
  refine ⟨rfl, rfl, ?_⟩
  have h0 : id ∉ (step s Ev.clear).1.queue := List.not_mem_nil id
  exact gone_run _ id es h0 hnr hfresh

/-- C9 witness: task 1 is queued behind running task 0 when the lane is
    cleared; its promise is never settled afterwards even as other work
    proceeds. -/
theorem claim_C9_cleared_never_settles_witness :
    settleCount 1 (run (step (run init [Ev.enqueue, Ev.enqueue]).1
      Ev.clear).1 [Ev.complete 0 true, Ev.enqueue, Ev.complete 2 true]).2 = 0 := by
  have h := claim_C9_cleared_never_settles
    (run init [Ev.enqueue, Ev.enqueue]).1 1
    [Ev.complete 0 true, Ev.enqueue, Ev.complete 2 true]
    (by decide) (by decide) (by decide)
  exact h.2.2

end CommandQueue

namespace SessionWriteLock

/-- C4 counterexample: a lock file whose JSON payload parses (pid 42,
    createdAt present) and whose owner is alive, but whose createdAt string
    is not a parsable date: the code deletes the file and retries
    immediately, while the claim as stated (unparsable payload, dead owner,
    or age over staleMs) prescribes the backoff wait of
    min(1000, 50 x attempt) = 50 ms. -/
theorem claim_C4_counterexample :
    onLockContention (fun _ => none) (fun _ => ProbeResult.ok)
      (some { pid := 42, createdAt := "bogus" }) 200 50 1 =
      LockRetry.deleteAndRetryNow ∧
    claimLockRetryDecision (fun _ => none) (fun _ => ProbeResult.ok)
      (some { pid := 42, createdAt := "bogus" }) 200 50 1 =
      LockRetry.waitThenRetry 50 := by
  refine ⟨by decide, by decide⟩

/-- C4 (amended): in the EEXIST branch of the acquisition loop, the lock
    file is deleted and the loop retries immediately with no delay exactly
    when the payload is unparsable, its createdAt is missing or does not
    parse as a date, the lock is older than staleMs, or the recorded process
    is not alive; in every other case the loop waits
    min(1000 ms, 50 ms x attemptNumber) before retrying. -/
theorem claim_C4_retry_decision (dateParse : String → Option Int)
    (probe : Int → ProbeResult) (payload : Option LockFilePayload)
    (now staleMs : Int) (attempt : Nat) :
    onLockContention dateParse probe payload now staleMs attempt =
      (if amendedReclaimCondition dateParse probe payload now staleMs
       then LockRetry.deleteAndRetryNow
       else LockRetry.waitThenRetry (min 1000 (50 * attempt))) := by
  unfold onLockContention amendedReclaimCondition
  rcases payload with _ | p
  · rfl
  · by_cases hc : p.createdAt = ""
    · simp [hc]
    · rcases hdp : dateParse p.createdAt with _ | t
      · simp [hc, hdp]
      · by_cases hp : p.pid = 0
        · simp [hc, hdp, hp]
        · by_cases hst : now - t > staleMs
          · simp [hc, hdp, hp, hst]
          · simp [hc, hdp, hp, hst]

theorem lookup_setLock_self (m : List (String × HeldLock)) (key : String)
    (v : HeldLock) : lookupLock (setLock m key v) key = some v := by
  induction m with
  | nil => simp [setLock, lookupLock]
  | cons kv t ih =>
    rcases kv with ⟨k0, v0⟩
    by_cases hk : k0 = key
    · simp only [setLock, if_pos hk, lookupLock]
    · simp only [setLock, if_neg hk, lookupLock]
      exact ih

theorem removeLock_cons (k0 : String) (v0 : HeldLock)
    (t : List (String × HeldLock)) (key : String) :
    removeLock ((k0, v0) :: t) key =
      if k0 = key then removeLock t key else (k0, v0) :: removeLock t key := by
  simp only [removeLock, List.filter_cons]
  by_cases h : k0 = key
  · simp [h]
  · simp [h]

theorem removeLock_setLock (m : List (String × HeldLock)) (key : String)
    (v : HeldLock) : removeLock (setLock m key v) key = removeLock m key := by
  induction m with
  | nil =>
    rw [show setLock [] key v = [(key, v)] from rfl, removeLock_cons,
      if_pos rfl]
  | cons kv t ih =>
    rcases kv with ⟨k0, v0⟩
    by_cases hk : k0 = key
    · rw [show setLock ((k0, v0) :: t) key v = (k0, v) :: t from by
        simp only [setLock, if_pos hk]]
      rw [removeLock_cons, removeLock_cons, if_pos hk, if_pos hk]
    · rw [show setLock ((k0, v0) :: t) key v = (k0, v0) :: setLock t key v
        from by simp only [setLock, if_neg hk]]
      rw [removeLock_cons, removeLock_cons, if_neg hk, if_neg hk, ih]

theorem lookup_removeLock (m : List (String × HeldLock)) (key : String) :
    lookupLock (removeLock m key) key = none := by
  induction m with
  | nil => rfl
  | cons kv t ih =>
    rcases kv with ⟨k0, v0⟩
    rw [removeLock_cons]
    by_cases hk : k0 = key
    · rw [if_pos hk]
      exact ih
    · rw [if_neg hk]
      simp only [lookupLock]
      rw [if_neg hk]
      exact ih

/-- C5: when the canonical path is already held, acquireSessionWriteLock
    only increments the shared reference count and performs no filesystem
    effect; release with a count above one only decrements the count with no
    filesystem effect; and only the release that brings the count to zero
    removes the registry entry, closes the OS handle and deletes the lock
    file. -/
theorem claim_C5_reentrant_acquire (m : List (String × HeldLock))
    (key : String) (h : HeldLock) (hlk : lookupLock m key = some h) :
    acquireReentrant m key =
      some (setLock m key { h with count := h.count + 1 },
        ([] : List FsEffect)) ∧
    (1 < h.count →
      release m key =
        (setLock m key { h with count := h.count - 1 },
          ([] : List FsEffect))) ∧
    (h.count = 1 →
      release m key =
        (removeLock m key,
          [FsEffect.closeHandle h.handleId, FsEffect.rmFile h.lockPath])) := by
  refine ⟨?_, ?_, ?_⟩
  · unfold acquireReentrant
    rw [hlk]
  · intro hc
    unfold release
    rw [hlk]
    dsimp only
    rw [if_pos (show h.count - 1 > 0 by omega)]
  · intro hc
    unfold release
    rw [hlk]
    dsimp only
    rw [hc]
    rfl

/-- C5 witness: a path held once is re-acquired (count 2, no filesystem
    access); the first release only decrements, the second closes the handle
    and deletes the lock file. -/
theorem claim_C5_reentrant_acquire_witness :
    acquireReentrant
      [("p", { count := 1, handleId := 7, lockPath := "p.lock" })] "p" =
      some ([("p", { count := 2, handleId := 7, lockPath := "p.lock" })],
        ([] : List FsEffect)) ∧
    release [("p", { count := 2, handleId := 7, lockPath := "p.lock" })] "p" =
      ([("p", { count := 1, handleId := 7, lockPath := "p.lock" })],
        ([] : List FsEffect)) ∧
    release [("p", { count := 1, handleId := 7, lockPath := "p.lock" })] "p" =
      (([] : List (String × HeldLock)),
        [FsEffect.closeHandle 7, FsEffect.rmFile "p.lock"]) := by
  refine ⟨?_, ?_, ?_⟩
  · exact (claim_C5_reentrant_acquire
      [("p", { count := 1, handleId := 7, lockPath := "p.lock" })] "p"
      { count := 1, handleId := 7, lockPath := "p.lock" } (by decide)).1
  · exact (claim_C5_reentrant_acquire
      [("p", { count := 2, handleId := 7, lockPath := "p.lock" })] "p"
      { count := 2, handleId := 7, lockPath := "p.lock" } (by decide)).2.1
      (by decide)
  · exact (claim_C5_reentrant_acquire
      [("p", { count := 1, handleId := 7, lockPath := "p.lock" })] "p"
      { count := 1, handleId := 7, lockPath := "p.lock" } (by decide)).2.2
      (by decide)

end SessionWriteLock

namespace SessionWriteLock

/-- n releases starting from a count of n drain the lock: the registry entry
    is removed and the handle close and lock file deletion each happen
    exactly once, at the last release. -/
theorem releaseN_drains : ∀ (n : Nat) (m : List (String × HeldLock))
    (key : String) (h : HeldLock),
    lookupLock m key = some h → h.count = n → 1 ≤ n →
    releaseN n m key =
      (removeLock m key,
       [FsEffect.closeHandle h.handleId, FsEffect.rmFile h.lockPath])
  | 0, _, _, _, _, _, h0 => absurd h0 (by omega)
  | 1, m, key, h, hlk, hc, _ => by
    simp only [releaseN]
    unfold release
    rw [hlk]
    dsimp only
    rw [hc]
    rfl
  | (k + 2), m, key, h, hlk, hc, _ => by
    have hrel : release m key =
        (setLock m key { h with count := h.count - 1 }, ([] : List FsEffect)) := by
      unfold release
      rw [hlk]
      dsimp only
      rw [if_pos (show h.count - 1 > 0 by omega)]
    have ih := releaseN_drains (k + 1)
      (setLock m key { h with count := h.count - 1 }) key
      { h with count := h.count - 1 }
      (lookup_setLock_self m key _) (by simp [hc]) (by omega)
    have hstep : releaseN (k + 2) m key =
        ((releaseN (k + 1) (release m key).1 key).1,
         (release m key).2 ++ (releaseN (k + 1) (release m key).1 key).2) := rfl
    rw [hstep, hrel]
    dsimp only
    rw [ih]
    dsimp only
    rw [removeLock_setLock]
    rfl

/-- C10: all release closures for one canonical path act on the one shared
    reference count: from a held count of n, any n release calls (regardless
    of which acquisition's closure performs them, the closures being
    identical) remove the registry entry and emit exactly one handle close
    and one lock file deletion, and any further release call is a no-op. -/
theorem claim_C10_shared_count (m : List (String × HeldLock)) (key : String)
    (h : HeldLock) (n : Nat)
    (hlk : lookupLock m key = some h) (hc : h.count = n) (hn : 1 ≤ n) :
    releaseN n m key =
      (removeLock m key,
       [FsEffect.closeHandle h.handleId, FsEffect.rmFile h.lockPath]) ∧
    release (removeLock m key) key = (removeLock m key, ([] : List FsEffect)) := by
  refine ⟨releaseN_drains n m key h hlk hc hn, ?_⟩
  unfold release
  rw [lookup_removeLock]

/-- C10 witness: a path held with count 2 is fully released by two calls
    (one close, one delete), and a third call does nothing. -/
theorem claim_C10_shared_count_witness :
    releaseN 2 [("p", { count := 2, handleId := 5, lockPath := "p.lock" })]
      "p" = (([] : List (String × HeldLock)),
        [FsEffect.closeHandle 5, FsEffect.rmFile "p.lock"]) ∧
    release (([] : List (String × HeldLock))) "p" =
      (([] : List (String × HeldLock)), ([] : List FsEffect)) := by
  have h := claim_C10_shared_count
    [("p", { count := 2, handleId := 5, lockPath := "p.lock" })] "p"
    { count := 2, handleId := 5, lockPath := "p.lock" } 2
    (by decide) (by decide) (by decide)
  exact ⟨h.1, h.2⟩

end SessionWriteLock

namespace SessionWriteLock

/-- C7 counterexample: the error that rejects a timed-out lane task is built
    from the configured timeout alone; for a task on lane alpha that ran for
    301000 ms against a 300000 ms budget, the rejection message contains
    neither the lane name nor the elapsed time, contrary to the claim that
    the lane task timeout rejection names the lane and the elapsed time. -/
theorem claim_C7_counterexample :
    laneTimeoutErrorMessage 300000 = "Lane task timed out after 300000ms" ∧
    strIncludes (laneTimeoutErrorMessage 300000) "alpha" = false ∧
    strIncludes (laneTimeoutErrorMessage 300000) "301000" = false := by
  refine ⟨by decide, by decide, by decide⟩

/-- C7 (amended): the lane task timeout rejection names only the configured
    timeout; the lane name, the elapsed duration and the configured timeout
    are all named by the warning logged on the timeout path rather than by
    the rejection; and the lock acquisition timeout error names the timeout
    value, the owning pid when known (with unknown otherwise), and the lock
    file path. -/
theorem claim_C7_messages :
    strIncludes (laneTimeoutErrorMessage 300000) "300000ms" = true ∧
    strIncludes (laneTimeoutWarnLog "alpha" 301000 300000 0 2)
      "lane=alpha" = true ∧
    strIncludes (laneTimeoutWarnLog "alpha" 301000 300000 0 2)
      "durationMs=301000" = true ∧
    strIncludes (laneTimeoutWarnLog "alpha" 301000 300000 0 2)
      "timeoutMs=300000" = true ∧
    lockTimeoutErrorMessage 10000 (some { pid := 42, createdAt := "t" })
      "/tmp/s.jsonl.lock" =
      "session file locked (timeout 10000ms): pid=42 /tmp/s.jsonl.lock" ∧
    strIncludes (lockTimeoutErrorMessage 10000
      (some { pid := 42, createdAt := "t" }) "/tmp/s.jsonl.lock")
      "10000ms" = true ∧
    strIncludes (lockTimeoutErrorMessage 10000
      (some { pid := 42, createdAt := "t" }) "/tmp/s.jsonl.lock")
      "pid=42" = true ∧
    strIncludes (lockTimeoutErrorMessage 10000
      (some { pid := 42, createdAt := "t" }) "/tmp/s.jsonl.lock")
      "/tmp/s.jsonl.lock" = true ∧
    lockOwnerDescription none = "unknown" := by
  refine ⟨by decide, by decide, by decide, by decide, by decide, by decide,
    by decide, by decide, by decide⟩

/-- The removal loop of cleanupOrphanedLocks removes exactly the entries
    whose resource path is untracked and whose payload is unparsable or
    whose recorded pid is dead, in directory order, returning their count. -/
theorem cleanupLoop_spec (probe : Int → ProbeResult) (held : List String)
    (dir : String) (l : List DirEntry) :
    cleanupLoop probe held dir l =
      ((l.filter (orphaned probe held dir)).length,
       (l.filter (orphaned probe held dir)).map
         (fun e => joinPath dir e.name)) := by
  induction l with
  | nil => rfl
  | cons e t ih =>
    simp only [cleanupLoop, ih]
    by_cases hh : stripLockSuffix (joinPath dir e.name) ∈ held
    · have hc : held.contains (stripLockSuffix (joinPath dir e.name)) =
          true := by simpa using hh
      simp [orphaned, List.filter_cons, hh, hc]
    · have hc : held.contains (stripLockSuffix (joinPath dir e.name)) =
          false := by simpa using hh
      rcases hp : e.payload with _ | p
      · simp [orphaned, List.filter_cons, hh, hc, hp]
      · by_cases ha : isAlive probe p.pid = true
        · simp [orphaned, List.filter_cons, hh, hc, hp, ha]
        · have ha' : isAlive probe p.pid = false := by simpa using ha
          simp [orphaned, List.filter_cons, hh, hc, hp, ha']

/-- C8: cleanupOrphanedLocks deletes exactly the .lock files of the
    directory that are not tracked by this process's held-lock registry and
    whose payload is unparsable or whose recorded pid is not alive, and
    returns their number; in particular, for a directory holding one lock
    file with a dead pid and one with a live pid, it removes exactly the
    dead one and returns 1. -/
theorem claim_C8_cleanup_removes_orphans :
    (∀ (probe : Int → ProbeResult) (held : List String) (dir : String)
      (entries : List DirEntry),
      cleanupOrphanedLocks probe held dir entries =
        ((entries.filter (fun e => orphaned probe held dir e &&
            strEndsWith e.name (".lock"))).length,
         (entries.filter (fun e => orphaned probe held dir e &&
            strEndsWith e.name (".lock"))).map
           (fun e => joinPath dir e.name))) ∧
    cleanupOrphanedLocks
      (fun p => if p = 100 then ProbeResult.ok else ProbeResult.err)
      ([] : List String) "d"
      [{ name := "a.jsonl.lock", payload := some { pid := 200, createdAt := "t" } },
       { name := "b.jsonl.lock", payload := some { pid := 100, createdAt := "t" } }] =
      (1, ["d/a.jsonl.lock"]) := by
  constructor
  · intro probe held dir entries
    unfold cleanupOrphanedLocks
    rw [cleanupLoop_spec, List.filter_filter]
  · decide

end SessionWriteLock
